import Mathlib

set_option maxRecDepth 8000

/-!
Shallow embedding of the generator scripts of the Confidential-Artifact-Auction
repository (`scripts/create-fhevm-example.ts`, `scripts/create-fhevm-category.ts`,
`scripts/generate-docs.ts`).

File contents are modelled by `Content`: ordinary files carry their text, and
JSON manifests carry the parsed JSON value (the `JSON.parse` / `JSON.stringify`
round trip of `updatePackageJson` is modelled by reading and writing the value
directly).  Directory trees are modelled by `Tree`; the children list keeps the
on-disk enumeration order used by `fs.readdirSync`.
-/

namespace CAA

/-- JSON values (the shapes produced by `JSON.parse` that the scripts touch). -/
inductive Json where
  | str (s : String)
  | num (n : Int)
  | jbool (b : Bool)
  | jnull
  | arr (xs : List Json)
  | obj (fields : List (String × Json))

/-- Contents of a file: plain text, or a parsed JSON document for manifests. -/
inductive Content where
  | text (s : String)
  | jsonC (j : Json)

/-- A directory tree.  `dir` children are `(name, entry)` pairs in readdir order. -/
inductive Tree where
  | file (c : Content)
  | dir (children : List (String × Tree))

/-- First-match association lookup over directory children. -/
def lookupA : List (String × Tree) → String → Option Tree
  | [], _ => none
  | (n, t) :: rest, m => if n = m then some t else lookupA rest m

/-- Resolve a relative path (list of components) inside a tree. -/
def treeLookup : List String → Tree → Option Tree
  | [], t => some t
  | _ :: _, Tree.file _ => none
  | n :: rest, Tree.dir cs =>
      match lookupA cs n with
      | none => none
      | some t => treeLookup rest t

/-- Direct child of a tree by name. -/
def lookupChild (t : Tree) (n : String) : Option Tree :=
  treeLookup [n] t

/-- `fs.readFileSync(..., 'utf-8')` on a text file; `none` when the entry is
absent, a directory, or a JSON-modelled manifest. -/
def readText (t : Tree) (p : List String) : Option String :=
  match treeLookup p t with
  | some (Tree.file (Content.text s)) => some s
  | _ => none

/-- Replace the value stored under a key, keeping its position, or append.
Models `fs.writeFileSync` into an existing directory and JS object field
assignment. -/
def replaceOrAppend : List (String × Tree) → String → Tree → List (String × Tree)
  | [], n, t => [(n, t)]
  | (m, u) :: rest, n, t =>
      if m = n then (m, t) :: rest else (m, u) :: replaceOrAppend rest n t

/-- Write a direct child of a directory (overwrite or create). -/
def updateChild : Tree → String → Tree → Tree
  | Tree.dir cs, n, t => Tree.dir (replaceOrAppend cs n t)
  | Tree.file c, _, _ => Tree.file c

/-- JS object field assignment `o[k] = v`: replaces the first matching key in
place, otherwise appends the key. -/
def setField : List (String × Json) → String → Json → List (String × Json)
  | [], k, v => [(k, v)]
  | (k', v') :: rest, k, v =>
      if k' = k then (k', v) :: rest else (k', v') :: setField rest k v

/-- First-match JSON object field lookup. -/
def getField : List (String × Json) → String → Option Json
  | [], _ => none
  | (k', v) :: rest, k => if k' = k then some v else getField rest k

/-- Outcome of running one of the generator CLIs.  `err msg written` models
`error(msg)` (print + `process.exit(1)`), with `written` the state of the
destination directory at exit (`none` when nothing was created).  `ok` carries
the final destination tree and the warnings printed along the way. -/
inductive GenResult where
  | err (msg : String) (written : Option Tree)
  | ok (tree : Tree) (warnings : List String)

/-- The destination directory contents at process exit, if any were created. -/
def GenResult.writtenAt : GenResult → Option Tree
  | .err _ w => w
  | .ok t _ => some t

/-- Whether the run ended in `error(...)` / `process.exit(1)`. -/
def GenResult.isErr : GenResult → Bool
  | .err _ _ => true
  | .ok _ _ => false

/-! ### JavaScript regex character classes -/

/-- JS `\s` (the whitespace class used by the scripts' regexes). -/
def isJsWs (c : Char) : Bool :=
  c == ' ' || c == '\t' || c == '\n' || c == '\r' || c == '\x0b' || c == '\x0c' ||
  c == ' ' || c == ' ' || (0x2000 ≤ c.val && c.val ≤ 0x200a) ||
  c == ' ' || c == ' ' || c == ' ' || c == ' ' ||
  c == '　' || c == '﻿'

/-- JS line terminators (where multiline `^` anchors after, and what `.` and
`$` are sensitive to). -/
def isLineTerm (c : Char) : Bool :=
  c == '\n' || c == '\r' || c == ' ' || c == ' '

/-- JS `.` without the `s` flag: any char except a line terminator. -/
def isDotChar (c : Char) : Bool := !(isLineTerm c)

/-- JS `\w`: ASCII letters, digits, underscore. -/
def isWordChar (c : Char) : Bool := c.isAlpha || c.isDigit || c == '_'

/-! ### `getContractName` (`create-fhevm-example.ts` lines 86-90)

`content.match(/^\s*contract\s+(\w+)(?:\s+is\s+|\s*\{)/m)`: at some line
start, optional whitespace, the literal `contract`, whitespace, a word (the
captured name), then either ` is ` or an opening brace.  Because `contract`,
`is`, `\x7b` and word characters are all non-whitespace, the regex engine's
backtracking collapses to the deterministic scan below. -/

/-- Try the contract-declaration pattern at one line-start position. -/
def matchContractAt (l : List Char) : Option String :=
  let l1 := l.dropWhile isJsWs
  if ("contract".data).isPrefixOf l1 then
    let l2 := l1.drop 8
    match l2.head? with
    | some c =>
      if isJsWs c then
        let l3 := l2.dropWhile isJsWs
        let w := l3.takeWhile isWordChar
        if w.isEmpty then none
        else
          let l4 := l3.drop w.length
          let alt1 :=
            match l4.head? with
            | some c2 =>
              isJsWs c2 &&
                (let l5 := l4.dropWhile isJsWs
                 ("is".data).isPrefixOf l5 &&
                   match (l5.drop 2).head? with
                   | some c3 => isJsWs c3
                   | none => false)
            | none => false
          let alt2 :=
            match (l4.dropWhile isJsWs).head? with
            | some c2 => c2 == '\x7b'
            | none => false
          if alt1 || alt2 then some (String.mk w) else none
      else none
    | none => none
  else none

/-- Advance to the next position where multiline `^` holds (just after the
next line terminator). -/
def nextLineStart (l : List Char) : Option (List Char) :=
  match l.dropWhile (fun c => !(isLineTerm c)) with
  | [] => none
  | _ :: rest => some rest

/-- Scan the line starts in order; fuel bounds the recursion (one unit per
line start; `length + 1` always suffices). -/
def gcnAux : Nat → List Char → Option String
  | 0, _ => none
  | fuel + 1, l =>
    match matchContractAt l with
    | some w => some w
    | none =>
      match nextLineStart l with
      | none => none
      | some rest => gcnAux fuel rest

/-- `getContractName`: the captured identifier of the first contract
declaration, or `none`. -/
def getContractName (content : String) : Option String :=
  gcnAux (content.length + 1) content.data

/-! ### `create-fhevm-example.ts` -/

/-- One entry of `EXAMPLES_MAP` (interface `ExampleConfig`). -/
structure ExampleConfig where
  contract : String
  test : String
  description : String
  category : String
deriving DecidableEq

/-- First-match lookup in a literal record-as-association-list. -/
def lookupStr {α : Type} : List (String × α) → String → Option α
  | [], _ => none
  | (k, v) :: rest, n => if k = n then some v else lookupStr rest n

/-- The example registry (`EXAMPLES_MAP`, lines 50-57). -/
def EXAMPLES_MAP : List (String × ExampleConfig) :=
  [("artifact-auction",
    { contract := "contracts/ArtifactAuction.sol"
      test := "test/ArtifactAuction.ts"
      description := "Confidential artifact auction with encrypted bids and authentication"
      category := "advanced" })]

/-- Split a character list on `/`. -/
def splitOnSlash : List Char → List (List Char)
  | [] => [[]]
  | c :: rest =>
      if c == '/' then [] :: splitOnSlash rest
      else
        match splitOnSlash rest with
        | [] => [[c]]
        | h :: t => (c :: h) :: t

/-- Relative path string to components (`path.join` composition). -/
def splitPath (s : String) : List String := (splitOnSlash s.data).map String.mk

/-- Directory names excluded from recursive copying (build output and
dependency caches; the same list appears in both generator scripts). -/
def excludedDirNames : List String :=
  ["node_modules", "artifacts", "cache", "coverage", "types", "dist", "fhevmTemp"]

mutual

/-- `copyDirectoryRecursive(source, destination, skipFiles)` into a fresh
destination: items named in `skipFiles` are dropped, excluded directory names
are dropped, everything else is copied. -/
def copyDirectoryRecursive (skipFiles : List String) : Tree → Tree
  | Tree.file c => Tree.file c
  | Tree.dir cs => Tree.dir (copyChildren skipFiles cs)

/-- The per-item `forEach` body of `copyDirectoryRecursive`. -/
def copyChildren (skipFiles : List String) : List (String × Tree) → List (String × Tree)
  | [] => []
  | (n, t) :: rest =>
      if skipFiles.contains n then copyChildren skipFiles rest
      else
        match t with
        | Tree.file c => (n, Tree.file c) :: copyChildren skipFiles rest
        | Tree.dir cs =>
            if excludedDirNames.contains n then copyChildren skipFiles rest
            else (n, Tree.dir (copyChildren skipFiles cs)) :: copyChildren skipFiles rest

end

/-- `updatePackageJson` (lines 92-98): parse the destination manifest, set
`name` to `fhevm-` + example key and `description`, write it back.  `none`
models the uncaught exception when the manifest is absent or not JSON. -/
def updatePackageJson (t : Tree) (exampleName description : String) : Option Tree :=
  match lookupChild t "package.json" with
  | some (Tree.file (Content.jsonC j)) =>
    let j' :=
      match j with
      | Json.obj fields =>
          Json.obj (setField (setField fields "name" (Json.str ("fhevm-" ++ exampleName)))
            "description" (Json.str description))
      | other => other
    some (updateChild t "package.json" (Tree.file (Content.jsonC j')))
  | _ => none

/-- `generateReadme` (lines 100-128), transcribed verbatim. -/
def generateReadme (exampleName description contractName : String) : String :=
  "# FHEVM Example: " ++ exampleName ++ "\n\n" ++ description ++
  "\n\n## Quick Start\n\n### Installation\n\n```bash\nnpm install\nnpm run compile\nnpm run test\n```" ++
  "\n\n## Contract\n\nMain contract: `" ++ contractName ++ "` in `contracts/" ++ contractName ++
  ".sol`\n\n## Documentation\n\n- [FHEVM Docs](https://docs.zama.ai/fhevm)\n- [Hardhat](https://hardhat.org)" ++
  "\n\n## License\n\nMIT License\n"

/-- `createExample(exampleName, outputDir)` (lines 130-181).  `root` is the
repository tree at `rootDir`, `destExists` the `fs.existsSync(outputDir)`
observation.  Steps in source order: registry lookup, contract/test existence
checks, destination check, recursive copy (skipping `scripts`), contract-name
extraction, manifest rewrite, README write. -/
def createExample (root : Tree) (exampleName outputDir : String) (destExists : Bool) :
    GenResult :=
  match lookupStr EXAMPLES_MAP exampleName with
  | none => .err ("Unknown example: " ++ exampleName) none
  | some exCfg =>
    if (treeLookup (splitPath exCfg.contract) root).isNone then
      .err ("Contract not found: " ++ exCfg.contract) none
    else if (treeLookup (splitPath exCfg.test) root).isNone then
      .err ("Test not found: " ++ exCfg.test) none
    else if destExists then
      .err ("Directory exists: " ++ outputDir) none
    else
      let copied := copyDirectoryRecursive ["scripts"] root
      match readText root (splitPath exCfg.contract) with
      | none => .err "readFileSync exception on the contract path" (some copied)
      | some contractContent =>
        match getContractName contractContent with
        | none => .err "Could not extract contract name" (some copied)
        | some contractName =>
          match updatePackageJson copied exampleName exCfg.description with
          | none => .err "JSON.parse exception on package.json" (some copied)
          | some t1 =>
            let readme := generateReadme exampleName exCfg.description contractName
            .ok (updateChild t1 "README.md" (Tree.file (Content.text readme))) []

/-! ### `create-fhevm-category.ts` -/

/-- One entry of `CATEGORIES` (interface `CategoryConfig`). -/
structure CategoryConfig where
  name : String
  description : String
  examples : List String
deriving DecidableEq

/-- The category registry (`CATEGORIES`, lines 55-76). -/
def CATEGORIES : List (String × CategoryConfig) :=
  [("basic",
    { name := "Basic FHEVM Examples"
      description := "Fundamental examples demonstrating basic FHE operations"
      examples := ["counter", "fhe-counter"] }),
   ("advanced",
    { name := "Advanced FHEVM Examples"
      description := "Complex examples showing real-world applications"
      examples := ["artifact-auction"] }),
   ("access-control",
    { name := "Access Control Examples"
      description := "Examples demonstrating FHE access control patterns"
      examples := [] }),
   ("encryption",
    { name := "Encryption Examples"
      description := "Examples showing encryption and decryption workflows"
      examples := [] })]

/-- One entry of `EXAMPLES` (interface `ExampleInfo`). -/
structure ExampleInfo where
  contract : String
  test : String
  description : String
deriving DecidableEq

/-- The per-example source registry of the category script (lines 85-101). -/
def EXAMPLES : List (String × ExampleInfo) :=
  [("counter",
    { contract := "contracts/Counter.sol"
      test := "test/Counter.ts"
      description := "Simple non-encrypted counter for comparison" }),
   ("fhe-counter",
    { contract := "base-template/contracts/FHECounter.sol"
      test := "base-template/test/FHECounter.ts"
      description := "Encrypted counter using FHEVM" }),
   ("artifact-auction",
    { contract := "contracts/ArtifactAuction.sol"
      test := "test/ArtifactAuction.ts"
      description := "Confidential artifact auction system" })]

/-- `path.basename`: last component of a slash-separated relative path. -/
def basename (p : String) : String :=
  (splitPath p).getLast?.getD p

/-- `EXAMPLES[ex]?.description || 'Example'` (JS `||` also replaces an empty
description string). -/
def exampleDescOr (ex : String) : String :=
  match lookupStr EXAMPLES ex with
  | some i => if i.description = "" then "Example" else i.description
  | none => "Example"

/-- `generateCategoryReadme` (lines 126-191), transcribed verbatim. -/
def generateCategoryReadme (categoryName : String) (config : CategoryConfig) : String :=
  "# " ++ config.name ++ "\n\n" ++ config.description ++ "\n\n## Examples Included\n\n" ++
  String.intercalate "\n"
    (config.examples.map (fun ex => "- **" ++ ex ++ "**: " ++ exampleDescOr ex)) ++
  "\n\n## Getting Started\n\n### Prerequisites\n\n- Node.js >= 20\n- npm >= 7.0.0" ++
  "\n\n### Installation\n\n```bash\nnpm install\n```" ++
  "\n\n### Compile All Examples\n\n```bash\nnpm run compile\n```" ++
  "\n\n### Run All Tests\n\n```bash\nnpm run test\n```" ++
  "\n\n## Individual Examples\n\nEach example can be found in its respective directory:\n\n" ++
  String.intercalate "\n" (config.examples.map (fun ex => "- `examples/" ++ ex ++ "/`")) ++
  "\n\n## Project Structure\n\n```\n" ++ categoryName ++ "/\n├── examples/\n" ++
  String.intercalate "\n"
    (config.examples.map (fun ex =>
      "│   ├── " ++ ex ++ "/\n│   │   ├── contracts/\n│   │   └── test/")) ++
  "\n├── hardhat.config.ts\n├── package.json\n└── README.md\n```" ++
  "\n\n## Documentation\n\nFor detailed documentation on each example, see the README in each example directory." ++
  "\n\n## Resources\n\n- [FHEVM Documentation](https://docs.zama.ai/fhevm)\n- [Hardhat Documentation](https://hardhat.org)\n- [Zama Community](https://www.zama.ai/community)" ++
  "\n\n## License\n\nMIT License\n"

/-- The per-member README template written inside `createCategory`
(lines 257-272). -/
def exampleReadmeText (exampleName : String) (info : ExampleInfo) : String :=
  "# " ++ exampleName ++ "\n\n" ++ info.description ++ "\n\n## Files\n\n- `contracts/" ++
  basename info.contract ++ "`\n- `test/" ++ basename info.test ++
  "`\n\n## Running\n\n```bash\nnpm run compile\nnpm run test\n```\n"

/-- The fixed list of shared configuration files copied from `base-template`
(line 217). -/
def baseTemplateFiles : List String :=
  ["hardhat.config.ts", "package.json", "tsconfig.json", ".gitignore",
   ".eslintrc.yml", ".prettierrc.yml"]

/-- Copy loop over `baseTemplateFiles`: existing files are copied, missing
ones skipped; `.error` models the uncaught `copyFileSync` exception when the
entry is a directory (then `existsSync` is true but the copy raises). -/
def copyBaseLoop (root : Tree) :
    List String → List (String × Tree) → Except (List (String × Tree)) (List (String × Tree))
  | [], acc => .ok acc
  | f :: rest, acc =>
      match treeLookup ["base-template", f] root with
      | some (Tree.file c) => copyBaseLoop root rest (acc ++ [(f, Tree.file c)])
      | some (Tree.dir _) => .error acc
      | none => copyBaseLoop root rest acc

/-- The base-template copy step (lines 215-223): only runs when the
`base-template` directory exists. -/
def copyBaseE (root : Tree) : Except (List (String × Tree)) (List (String × Tree)) :=
  if (lookupChild root "base-template").isSome then copyBaseLoop root baseTemplateFiles []
  else .ok []

/-- Copy one referenced source file into a member subdirectory (lines
240-254): copied when it exists, silently absent when missing, exception when
it is a directory. -/
def copyOneSource (root : Tree) (p : String) : Except Unit (List (String × Tree)) :=
  match treeLookup (splitPath p) root with
  | some (Tree.file c) => .ok [(basename p, Tree.file c)]
  | some (Tree.dir _) => .error ()
  | none => .ok []

/-- Build one member directory: `contracts/`, `test/`, and the member README
(the forEach body, lines 235-273). -/
def memberDir (root : Tree) (m : String) (info : ExampleInfo) : Except Unit Tree := do
  let cdir ← copyOneSource root info.contract
  let tdir ← copyOneSource root info.test
  .ok (Tree.dir [("contracts", Tree.dir cdir), ("test", Tree.dir tdir),
    ("README.md", Tree.file (Content.text (exampleReadmeText m info)))])

/-- The member loop (lines 228-274): members missing from `EXAMPLES` get a
warning and are skipped; present members always get a directory. -/
def examplesLoop (root : Tree) :
    List String → List (String × Tree) → List String →
      Except (List (String × Tree) × List String) (List (String × Tree) × List String)
  | [], acc, ws => .ok (acc, ws)
  | m :: rest, acc, ws =>
      match lookupStr EXAMPLES m with
      | none =>
          examplesLoop root rest acc (ws ++ ["Warning: Example " ++ m ++ " not found"])
      | some info =>
          match memberDir root m info with
          | .error _ => .error (acc, ws)
          | .ok d => examplesLoop root rest (acc ++ [(m, d)]) ws

/-- `createCategory(categoryName, outputDir)` (lines 193-306). -/
def createCategory (root : Tree) (categoryName outputDir : String) (destExists : Bool) :
    GenResult :=
  match lookupStr CATEGORIES categoryName with
  | none =>
      .err ("Unknown category: " ++ categoryName ++ "\n\nAvailable categories:\n" ++
        String.intercalate "\n" (CATEGORIES.map (fun p => "  - " ++ p.1))) none
  | some cat =>
    if destExists then
      .err ("Output directory already exists: " ++ outputDir) none
    else
      match copyBaseE root with
      | .error acc =>
          .err "copyFileSync exception on a base-template entry"
            (some (Tree.dir ([("examples", Tree.dir [])] ++ acc)))
      | .ok acc =>
        match examplesLoop root cat.examples [] [] with
        | .error (exChildren, _) =>
            .err "copyFileSync exception on an example source"
              (some (Tree.dir ([("examples", Tree.dir exChildren)] ++ acc)))
        | .ok (exChildren, warns) =>
          let catReadme := generateCategoryReadme categoryName cat
          let t := Tree.dir ([("examples", Tree.dir exChildren)] ++ acc ++
            [("README.md", Tree.file (Content.text catReadme))])
          match lookupChild t "package.json" with
          | some (Tree.file (Content.jsonC j)) =>
              let j' :=
                match j with
                | Json.obj fields =>
                    Json.obj (setField
                      (setField fields "name"
                        (Json.str ("fhevm-" ++ categoryName ++ "-examples")))
                      "description" (Json.str cat.description))
                | other => other
              .ok (updateChild t "package.json" (Tree.file (Content.jsonC j'))) warns
          | some (Tree.file (Content.text _)) =>
              .err "JSON.parse exception on package.json" (some t)
          | some (Tree.dir _) =>
              .err "readFileSync exception on package.json" (some t)
          | none => .ok t warns

/-! ### `generate-docs.ts`: test-comment extraction (lines 51-85)

`describe\(['"\x60](.*?)['"\x60],\s*function\s*\(\)` with the `g` flag, and
`\/\*\*[\s\S]*?\*\//g` over the prefix before each match.  The scanners below
spell out the engine's leftmost, non-overlapping, lazy-group behaviour; fuel
equal to the input length plus one always suffices since every step consumes
at least one character.  Match indices count characters; JS counts UTF-16
code units, and the two agree on inputs without characters beyond the basic
multilingual plane. -/

/-- The `['"\x60]` quote class. -/
def quoteChar (c : Char) : Bool := c == '\x27' || c == '"' || c == '\x60'

/-- `,\s*function\s*\(\)` after a closing quote: returns the rest after `()`. -/
def matchDescribeTail (l : List Char) : Option (List Char) :=
  let l1 := l.dropWhile isJsWs
  if ("function".data).isPrefixOf l1 then
    let l2 := (l1.drop 8).dropWhile isJsWs
    if ("()".data).isPrefixOf l2 then some (l2.drop 2) else none
  else none

/-- Lazy `(.*?)` scan for the title: at each position first try to close the
group (quote, comma, tail), otherwise extend it by one `.`-matchable char. -/
def titleScan : Nat → List Char → List Char → Option (List Char × List Char)
  | 0, _, _ => none
  | fuel + 1, acc, l =>
    match l with
    | [] => none
    | c :: rest =>
      let closed :=
        if quoteChar c then
          match rest with
          | c2 :: rest2 =>
              if c2 == ',' then
                match matchDescribeTail rest2 with
                | some rest3 => some (acc.reverse, rest3)
                | none => none
              else none
          | [] => none
        else none
      match closed with
      | some r => some r
      | none => if isDotChar c then titleScan fuel (c :: acc) rest else none

/-- Global scan for `describe(` matches, collecting `(title, index)` pairs in
order, non-overlapping. -/
def describeLoop : Nat → Nat → List Char → List (String × Nat)
  | 0, _, _ => []
  | fuel + 1, pos, l =>
    match l with
    | [] => []
    | _ :: rest =>
      let attempt :=
        if ("describe(".data).isPrefixOf l then
          match l.drop 9 with
          | q :: l2 =>
              if quoteChar q then titleScan (l2.length + 1) [] l2 else none
          | [] => none
        else none
      match attempt with
      | some (title, rest3) =>
          (String.mk title, pos) :: describeLoop fuel (pos + (l.length - rest3.length)) rest3
      | none => describeLoop fuel (pos + 1) rest

/-- Find the end of a lazy `[\s\S]*?\*\/`: the body up to the first `*/`. -/
def scanClose : Nat → List Char → List Char → Option (List Char × List Char)
  | 0, _, _ => none
  | fuel + 1, acc, l =>
    if ("*/".data).isPrefixOf l then some (acc.reverse, l.drop 2)
    else
      match l with
      | [] => none
      | c :: rest => scanClose fuel (c :: acc) rest

/-- All block-comment matches of `/\*\*[\s\S]*?\*\//g`, in order.  When a
`/**` opener has no later `*/`, no further match exists at all (any later
opener starts at least three characters further on and would need a `*/`
inside the region already searched), so the scan stops. -/
def jsdocLoop : Nat → List Char → List (List Char)
  | 0, _ => []
  | fuel + 1, l =>
    if ("/**".data).isPrefixOf l then
      match scanClose (l.length + 1) [] (l.drop 3) with
      | some (body, rest) =>
          ("/**".data ++ body ++ "*/".data) :: jsdocLoop fuel rest
      | none => []
    else
      match l with
      | [] => []
      | _ :: rest => jsdocLoop fuel rest

/-- Whether multiline `$` holds at this suffix (end of input or before a line
terminator). -/
def lineEndHere (l : List Char) : Bool :=
  match l.head? with
  | none => true
  | some c => isLineTerm c

/-- `.replace(/\/\*\*|^\s*\*\/$/gm, '')`: remove every `/**`, and every
`*/` that sits alone (after whitespace) on a line end.  Since `*` is not
whitespace the greedy `^\s*` collapses to the full whitespace run. -/
def stripDelims : Nat → Bool → List Char → List Char
  | 0, _, l => l
  | fuel + 1, atStart, l =>
    if ("/**".data).isPrefixOf l then stripDelims fuel false (l.drop 3)
    else
      let starMatch :=
        if atStart then
          let r := l.dropWhile isJsWs
          if ("*/".data).isPrefixOf r && lineEndHere (r.drop 2) then some (r.drop 2)
          else none
        else none
      match starMatch with
      | some rest => stripDelims fuel false rest
      | none =>
        match l with
        | [] => []
        | c :: rest => c :: stripDelims fuel (isLineTerm c) rest

/-- JS `String.split('\n')`. -/
def splitNl : List Char → List (List Char)
  | [] => [[]]
  | c :: rest =>
      if c == '\n' then [] :: splitNl rest
      else
        match splitNl rest with
        | [] => [[c]]
        | h :: t => (c :: h) :: t

/-- `.replace(/^\s*\*\s?/, '')` on one line. -/
def stripStarPrefix (l : List Char) : List Char :=
  let r := l.dropWhile isJsWs
  match r with
  | c :: rest =>
      if c == '*' then
        match rest with
        | c2 :: rest2 => if isJsWs c2 then rest2 else rest
        | [] => []
      else l
  | [] => l

/-- The comment-body cleanup applied to the chosen JSDoc match (lines 68-74):
delimiter replacement, split on newlines, drop blank lines, strip a leading
star from each remaining line, rejoin. -/
def stripJsDocComment (s : List Char) : List Char :=
  let s1 := stripDelims (s.length + 1) true s
  let kept := (splitNl s1).filter (fun ln => ln.any (fun c => !(isJsWs c)))
  List.intercalate ['\n'] (kept.map stripStarPrefix)

/-- One extracted `(title, description, context)` record. -/
structure TestDescription where
  title : String
  description : String
  context : String

/-- `extractTestDescriptions` (lines 51-85): for each `describe` match, take
all block comments in the prefix before it; with none the group yields
nothing, otherwise the last (nearest) comment is cleaned up and paired. -/
def extractTestDescriptions (content : String) : List TestDescription :=
  (describeLoop (content.data.length + 1) 0 content.data).filterMap (fun tp =>
    let before := content.data.take tp.2
    match (jsdocLoop (before.length + 1) before).getLast? with
    | none => none
    | some comment =>
        some { title := tp.1, description := String.mk (stripJsDocComment comment),
               context := tp.1 })

/-! ### `generate-docs.ts`: contract scanning (lines 88-150) -/

/-- Backtracking attempt for `\s*(.*?)\n` after a `///`: `k` counts how much
of the whitespace run `\s*` keeps (greedy, so larger `k` first); the lazy
capture then runs to the first `\n` through `.`-matchable characters. -/
def tryTripleK (l : List Char) : Nat → Option (List Char)
  | 0 =>
    let cap := l.takeWhile isDotChar
    if (l.drop cap.length).head? == some '\n' then some cap else none
  | k + 1 =>
    let s := l.drop (k + 1)
    let cap := s.takeWhile isDotChar
    if (s.drop cap.length).head? == some '\n' then some cap
    else tryTripleK l k

/-- First match of `/\/\/\/\s*(.*?)\n/`: the captured group. -/
def tripleSlashCapture : Nat → List Char → Option (List Char)
  | 0, _ => none
  | fuel + 1, l =>
    let attempt :=
      if ("///".data).isPrefixOf l then
        let l1 := l.drop 3
        tryTripleK l1 (l1.takeWhile isJsWs).length
      else none
    match attempt with
    | some cap => some cap
    | none =>
      match l with
      | [] => none
      | _ :: rest => tripleSlashCapture fuel rest

/-- `\s*(\w+)\s+(\w+)` after the optional visibility group of the
state-variable pattern. -/
def varRest (l : List Char) : Option (List Char × List Char × List Char) :=
  let l2 := l.dropWhile isJsWs
  let w2 := l2.takeWhile isWordChar
  if w2.isEmpty then none
  else
    let l3 := l2.drop w2.length
    match l3.head? with
    | some c =>
      if isJsWs c then
        let l4 := l3.dropWhile isJsWs
        let w3 := l4.takeWhile isWordChar
        if w3.isEmpty then none else some (w2, w3, l4.drop w3.length)
      else none
    | none => none

/-- `^\s*(public|private)?\s*(\w+)\s+(\w+)` at one line start, with the
engine's alternative order (`public`, `private`, then the empty option). -/
def varMatchAt (l : List Char) : Option (List Char × List Char × List Char) :=
  let l1 := l.dropWhile isJsWs
  let tryKw := fun (kw : String) =>
    if kw.data.isPrefixOf l1 then varRest (l1.drop kw.length) else none
  match tryKw "public" with
  | some r => some r
  | none =>
    match tryKw "private" with
    | some r => some r
    | none => varRest l1

/-- Global multiline scan of `varRegex` (line 123), collecting the second and
third capture groups of each match. -/
def varLoop : Nat → Bool → List Char → List (List Char × List Char)
  | 0, _, _ => []
  | fuel + 1, atStart, l =>
    match l with
    | [] => []
    | c :: rest =>
      let attempt := if atStart then varMatchAt l else none
      match attempt with
      | some (w2, w3, after) => (w2, w3) :: varLoop fuel false after
      | none => varLoop fuel (isLineTerm c) rest

/-- Consume the first keyword of `kws` that is a literal prefix (a greedy
optional alternation group); `[]` when none is. -/
def tryKeywords (l : List Char) : List String → (List Char × List Char)
  | [] => ([], l)
  | kw :: rest =>
      if kw.data.isPrefixOf l then (kw.data, l.drop kw.length) else tryKeywords l rest

/-- `(returns\s*\([^)]*\))?`: consume the clause when it fully matches,
otherwise match the empty option. -/
def tryReturns (l : List Char) : List Char :=
  if ("returns".data).isPrefixOf l then
    let m := (l.drop 7).dropWhile isJsWs
    match m.head? with
    | some c =>
      if c == '(' then
        let args := (m.drop 1).takeWhile (fun c2 => c2 != ')')
        match ((m.drop 1).drop args.length).head? with
        | some c2 => if c2 == ')' then ((m.drop 1).drop args.length).drop 1 else l
        | none => l
      else l
    | _ => l
  else l

/-- The `functionRegex` pattern (line 116) at one position: name, visibility
group (possibly empty) and the rest after the whole match. -/
def funcMatchAt (l : List Char) : Option (List Char × List Char × List Char) :=
  if ("function".data).isPrefixOf l then
    let l1 := l.drop 8
    match l1.head? with
    | some c =>
      if isJsWs c then
        let l2 := l1.dropWhile isJsWs
        let name := l2.takeWhile isWordChar
        if name.isEmpty then none
        else
          let l3 := (l2.drop name.length).dropWhile isJsWs
          match l3.head? with
          | some c1 =>
            if c1 == '(' then
              let args := (l3.drop 1).takeWhile (fun c2 => c2 != ')')
              match ((l3.drop 1).drop args.length).head? with
              | some c2 =>
                if c2 == ')' then
                  let l5 := (((l3.drop 1).drop args.length).drop 1).dropWhile isJsWs
                  let vis := tryKeywords l5 ["public", "external", "internal", "private"]
                  let l7 := vis.2.dropWhile isJsWs
                  let l8 := (tryKeywords l7 ["view", "pure"]).2
                  let l9 := l8.dropWhile isJsWs
                  some (name, vis.1, tryReturns l9)
                else none
              | none => none
            else none
          | none => none
      else none
    | none => none
  else none

/-- Global scan of `functionRegex`, collecting `(name, visibility)` pairs. -/
def funcLoop : Nat → List Char → List (List Char × List Char)
  | 0, _ => []
  | fuel + 1, l =>
    match funcMatchAt l with
    | some (name, vis, after) => (name, vis) :: funcLoop fuel after
    | none =>
      match l with
      | [] => []
      | _ :: rest => funcLoop fuel rest

/-- `generateContractDoc` (lines 88-150), over the already-read contract and
test file contents.  The `stateVarRegex` of line 115 is declared but unused
in the source; the loop uses `varRegex`. -/
def generateContractDoc (contractName contractContent testContent : String) : String :=
  let testDescriptions := extractTestDescriptions testContent
  let d0 := "# " ++ contractName ++ "\n\n"
  let d1 :=
    match tripleSlashCapture (contractContent.data.length + 1) contractContent.data with
    | some cap => d0 ++ String.mk cap ++ "\n\n"
    | none => d0
  let d2 := d1 ++ "## Overview\n\n**File:** `contracts/" ++ contractName ++ ".sol`\n\n"
  let d3 :=
    if testDescriptions.length > 0 then
      d2 ++ "## Functionality\n\n" ++
        String.join (testDescriptions.map (fun t =>
          "### " ++ t.title ++ "\n\n" ++ t.description ++ "\n\n"))
    else d2
  let d4 := d3 ++ "## Contract Structure\n\n### State Variables\n\n"
  let vars := varLoop (contractContent.data.length + 1) true contractContent.data
  let d5 :=
    if vars.isEmpty then d4 ++ "No public state variables.\n"
    else d4 ++ String.join (vars.map (fun p =>
      "- `" ++ String.mk p.1 ++ " " ++ String.mk p.2 ++ "`\n"))
  let d6 := d5 ++ "\n### Functions\n\n"
  let funcs := funcLoop (contractContent.data.length + 1) contractContent.data
  let d7 :=
    if funcs.isEmpty then d6 ++ "No public functions.\n"
    else d6 ++ String.join (funcs.map (fun p =>
      "- `" ++ String.mk p.1 ++ "` (" ++
        (if p.2.isEmpty then "internal" else String.mk p.2) ++ ")\n"))
  d7 ++ "\n## Testing\n\nRun tests with:\n\n```bash\nnpm run test\n```\n\n"

/-! ### `generate-docs.ts`: fixed outputs and the generation run -/

/-- `generateSummary` (lines 153-166). -/
def generateSummary : String :=
  "# Summary\n\n## Introduction\n\n* [Introduction](README.md)\n\n" ++
  "## Examples\n\n* [Artifact Auction](docs/artifact-auction.md)\n\n" ++
  "## Development\n\n* [Developer Guide](DEVELOPER_GUIDE.md)\n* [API Reference](docs/api.md)\n"

/-- The static API reference written to `docs/api.md` (lines 190-252). -/
def apiDoc : String :=
  "# API Reference\n\n## ArtifactAuction Contract\n\n### Core Functions\n\n" ++
  "#### createAuction\nCreates a new artifact auction.\n\n```solidity\nfunction createAuction(\n" ++
  "    string memory _name,\n    string memory _description,\n    string memory _category,\n" ++
  "    uint256 _minimumBid,\n    uint256 _auctionDuration,\n    uint256 _yearCreated,\n" ++
  "    string memory _provenance\n) external returns (uint32)\n```\n\n" ++
  "#### authenticateArtifact\nAuthenticates an artifact in an auction.\n\n```solidity\n" ++
  "function authenticateArtifact(uint32 auctionId)\n    external\n    onlyAuthenticator\n```\n\n" ++
  "#### placeBid\nPlaces an encrypted bid on an auction.\n\n```solidity\n" ++
  "function placeBid(uint32 auctionId, uint64 _bidAmount)\n    external\n" ++
  "    auctionExists(auctionId)\n    auctionActive(auctionId)\n```\n\n" ++
  "#### endAuction\nEnds an auction and requests bid decryption.\n\n```solidity\n" ++
  "function endAuction(uint32 auctionId) external\n```\n\n### View Functions\n\n" ++
  "- `getAuctionInfo(uint32 auctionId)` - Get auction details\n" ++
  "- `getArtifactDetails(uint32 auctionId)` - Get artifact information\n" ++
  "- `getBidStatus(uint32 auctionId, address bidder)` - Get bid status\n" ++
  "- `getAuctionResults(uint32 auctionId)` - Get auction results\n" ++
  "- `getActiveAuctions()` - Get all active auction IDs\n\n### Events\n\n" ++
  "- `AuctionCreated` - Emitted when auction is created\n" ++
  "- `ConfidentialBidPlaced` - Emitted when bid is placed\n" ++
  "- `AuctionEnded` - Emitted when auction ends\n" ++
  "- `ArtifactAuthenticated` - Emitted when artifact is authenticated\n" ++
  "- `EarningsWithdrawn` - Emitted when seller withdraws earnings\n"

/-- String escaping of `JSON.stringify` for the characters occurring here. -/
def jsonEscape (s : String) : String :=
  String.join (s.data.map (fun c =>
    if c == '"' then "\\\""
    else if c == '\\' then "\\\\"
    else if c == '\n' then "\\n"
    else if c == '\t' then "\\t"
    else if c == '\r' then "\\r"
    else String.mk [c]))

/-- Indentation prefix used by `JSON.stringify(v, null, 2)`. -/
def jsonPad (n : Nat) : String := String.mk (List.replicate n ' ')

mutual

/-- `JSON.stringify(v, null, 2)` at nesting depth `d`. -/
def Json.render (d : Nat) : Json → String
  | Json.str s => "\"" ++ jsonEscape s ++ "\""
  | Json.num n => toString n
  | Json.jbool b => if b then "true" else "false"
  | Json.jnull => "null"
  | Json.arr [] => "[]"
  | Json.arr (x :: xs) =>
      "[\n" ++ String.intercalate ",\n" (Json.renderItems (d + 2) (x :: xs)) ++
      "\n" ++ jsonPad d ++ "]"
  | Json.obj [] => "\x7b\x7d"
  | Json.obj (f :: fs) =>
      "\x7b\n" ++ String.intercalate ",\n" (Json.renderFields (d + 2) (f :: fs)) ++
      "\n" ++ jsonPad d ++ "\x7d"

/-- Array items, each on its own indented line. -/
def Json.renderItems (d : Nat) : List Json → List String
  | [] => []
  | x :: xs => (jsonPad d ++ Json.render d x) :: Json.renderItems d xs

/-- Object fields, each on its own indented line. -/
def Json.renderFields (d : Nat) : List (String × Json) → List String
  | [] => []
  | (k, v) :: fs =>
      (jsonPad d ++ "\"" ++ jsonEscape k ++ "\": " ++ Json.render d v) ::
        Json.renderFields d fs

end

/-- The `book.json` configuration object (lines 263-269). -/
def bookConfig : Json :=
  Json.obj [("root", Json.str "./"),
    ("structure", Json.obj [("readme", Json.str "README.md"),
      ("summary", Json.str "SUMMARY.md")])]

/-- Terminal colour escape prefixes (`enum Color`). -/
def cReset : String := "\x1b[0m"

def cGreen : String := "\x1b[32m"

def cBlue : String := "\x1b[34m"

def cYellow : String := "\x1b[33m"

def cCyan : String := "\x1b[36m"

/-- One `log(message, color)` line as printed: colour, message, reset. -/
def logLine (color msg : String) : String := color ++ msg ++ cReset

/-- `generateDocumentation` (lines 169-287) as a pure function of the
contract and test file contents (`none` models `existsSync` returning false).
Result: the `(path, content)` writes in order, and the console lines. -/
def generateDocumentation (contractC testC : Option String) :
    List (List String × String) × List String :=
  let l0 := [logLine cCyan "Generating documentation..."]
  let step1 :=
    match contractC, testC with
    | some c, some t =>
        ([(["docs", "artifact-auction.md"], generateContractDoc "ArtifactAuction" c t)],
         [logLine cGreen "Success: Generated artifact-auction.md"])
    | _, _ => (([] : List (List String × String)), ([] : List String))
  let ws := step1.1 ++ [(["docs", "api.md"], apiDoc), (["SUMMARY.md"], generateSummary),
    (["book.json"], Json.render 0 bookConfig)]
  let logs := l0 ++ step1.2 ++
    [logLine cGreen "Success: Generated api.md",
     logLine cGreen "Success: Generated SUMMARY.md",
     logLine cGreen "Success: Generated book.json",
     logLine cGreen ("\n" ++ String.mk (List.replicate 60 '=')),
     logLine cGreen "Success: Documentation generated successfully",
     logLine cGreen (String.mk (List.replicate 60 '=')),
     logLine cYellow "\nGenerated files:",
     logLine cReset "  - docs/artifact-auction.md",
     logLine cReset "  - docs/api.md",
     logLine cReset "  - SUMMARY.md",
     logLine cReset "  - book.json",
     logLine cCyan "\nTo serve documentation locally:",
     logLine cReset "  npm install -g gitbook-cli",
     logLine cReset "  gitbook serve"]
  (ws, logs)

/-! ### A flat file map for the repeated-run statement, and `main` -/

/-- First-match lookup in a flat path-to-content file map. -/
def fsLookup : List (List String × String) → List String → Option String
  | [], _ => none
  | (p, c) :: rest, q => if p = q then some c else fsLookup rest q

/-- `fs.writeFileSync`: overwrite in place or append. -/
def fsWrite : List (List String × String) → List String → String →
    List (List String × String)
  | [], p, c => [(p, c)]
  | (q, d) :: rest, p, c =>
      if q = p then (q, c) :: rest else (q, d) :: fsWrite rest p c

/-- Apply a write list in order. -/
def applyWrites (fs : List (List String × String)) (ws : List (List String × String)) :
    List (List String × String) :=
  ws.foldl (fun a pc => fsWrite a pc.1 pc.2) fs

/-- The hardcoded input paths of `generateDocumentation` (lines 174-175). -/
def contractSrcPath : List String := ["contracts", "ArtifactAuction.sol"]

/-- The hardcoded test input path. -/
def testSrcPath : List String := ["test", "ArtifactAuction.ts"]

/-- One documentation run against a file map: read the two fixed inputs,
produce the writes and logs. -/
def runDocs (fs : List (List String × String)) :
    List (List String × String) × List String :=
  generateDocumentation (fsLookup fs contractSrcPath) (fsLookup fs testSrcPath)

/-- Observable behaviour of the `generate-docs` CLI entry point. -/
inductive DocsBehavior where
  | helpShown
  | ran (writes : List (List String × String)) (logs : List String)

/-- `main` (lines 290-303) checks only whether the first argument is
`--help` or `-h`; every other argument vector runs the same generation. -/
def isHelpArg (args : List String) : Bool :=
  args.head? == some "--help" || args.head? == some "-h"

/-- The `generate-docs` entry point over an argument vector and file map. -/
def docsMain (args : List String) (fs : List (List String × String)) : DocsBehavior :=
  if isHelpArg args then .helpShown
  else
    let r := runDocs fs
    .ran r.1 r.2

/-- The warnings printed by a successful run (`err` aborts the run). -/
def GenResult.warningsOf : GenResult → List String
  | .err _ _ => []
  | .ok _ ws => ws

/-- Whether an optional tree entry is a directory. -/
def isDirEntry : Option Tree → Bool
  | some (Tree.dir _) => true
  | _ => false

/-- Whether an optional tree entry is a plain text file. -/
def isTextEntry : Option Tree → Bool
  | some (Tree.file (Content.text _)) => true
  | _ => false

/-- Whether one character list occurs contiguously inside another. -/
def containsSeq (needle : List Char) : List Char → Bool
  | [] => needle.isEmpty
  | c :: rest => needle.isPrefixOf (c :: rest) || containsSeq needle rest

/-- Children of a small concrete repository tree used to instantiate the
generator theorems. -/
def sampleRootChildren : List (String × Tree) :=
  [("package.json", Tree.file (Content.jsonC (Json.obj
      [("name", Json.str "hub"), ("version", Json.str "1.0.0"),
       ("description", Json.str "template description")]))),
   ("contracts", Tree.dir [("ArtifactAuction.sol",
      Tree.file (Content.text "contract ArtifactAuction \x7b"))]),
   ("test", Tree.dir [("ArtifactAuction.ts", Tree.file (Content.text "// t"))])]

/-- The sample repository tree itself. -/
def sampleRoot : Tree := Tree.dir sampleRootChildren

/-- The warnings printed by the category member loop: one line per member
missing from the `EXAMPLES` registry, in member order. -/
def warnMsgs (members : List String) : List String :=
  (members.filter (fun m => (lookupStr EXAMPLES m).isNone)).map
    (fun m => "Warning: Example " ++ m ++ " not found")

/-- The base-template files actually copied (those present as files). -/
def baseFilter (root : Tree) (names : List String) : List (String × Tree) :=
  names.filterMap (fun f =>
    match treeLookup ["base-template", f] root with
    | some (Tree.file c) => some (f, Tree.file c)
    | _ => none)

/-- A concrete repository tree exercising the category generator: the
`counter` sources and a base-template manifest exist, the `fhe-counter`
sources do not. -/
def sampleCatRoot : Tree :=
  Tree.dir
    [("base-template", Tree.dir
        [("package.json", Tree.file (Content.jsonC (Json.obj [("name", Json.str "bt")])))]),
     ("contracts", Tree.dir [("Counter.sol",
        Tree.file (Content.text "contract Counter \x7b"))]),
     ("test", Tree.dir [("Counter.ts", Tree.file (Content.text "// t"))])]

/-- Indexed version of the comment scan: each match paired with its start
index.  Runs in lockstep with `jsdocLoop`. -/
def jsdocLoopIdx : Nat → Nat → List Char → List (Nat × List Char)
  | 0, _, _ => []
  | fuel + 1, pos, l =>
    if ("/**".data).isPrefixOf l then
      match scanClose (l.length + 1) [] (l.drop 3) with
      | some (body, rest) =>
          (pos, "/**".data ++ body ++ "*/".data) ::
            jsdocLoopIdx fuel (pos + (l.length - rest.length)) rest
      | none => []
    else
      match l with
      | [] => []
      | _ :: rest => jsdocLoopIdx fuel (pos + 1) rest

/-- The latest-starting element of a list of indexed matches: the spec
reading of "the nearest preceding comment". -/
def latestStart : List (Nat × List Char) → Option (Nat × List Char)
  | [] => none
  | pc :: rest => some (rest.foldl (fun a b => if a.1 < b.1 then b else a) pc)

/-- Extraction as the amended claim words it: for each test group, consider
the block comments found in the text before its declaration; with none the
group yields no pair, otherwise the nearest one (the comment starting
latest) is cleaned and paired with the group title. -/
def specExtract (content : String) : List TestDescription :=
  (describeLoop (content.data.length + 1) 0 content.data).filterMap (fun tp =>
    let before := content.data.take tp.2
    match latestStart (jsdocLoopIdx (before.length + 1) 0 before) with
    | none => none
    | some pc =>
        some { title := tp.1, description := String.mk (stripJsDocComment pc.2),
               context := tp.1 })

/-! ### Support lemmas -/

theorem fsLookup_fsWrite_ne (fs : List (List String × String)) (p : List String)
    (c : String) (q : List String) (h : p ≠ q) :
    fsLookup (fsWrite fs p c) q = fsLookup fs q := by
  induction fs with
  | nil => simp [fsWrite, fsLookup, h]
  | cons hd tl ih =>
      unfold fsWrite
      by_cases hq : hd.1 = p
      · simp [fsLookup, hq, h]
      · simp [fsLookup, hq, ih]

theorem fsLookup_applyWrites (fs ws : List (List String × String)) (q : List String)
    (h : ∀ pc ∈ ws, pc.1 ≠ q) :
    fsLookup (applyWrites fs ws) q = fsLookup fs q := by
  induction ws generalizing fs with
  | nil => rfl
  | cons pc tl ih =>
      have hpc : pc.1 ≠ q := h pc (by simp)
      have htl : ∀ x ∈ tl, x.1 ≠ q := fun x hx => h x (by simp [hx])
      show fsLookup (applyWrites (fsWrite fs pc.1 pc.2) tl) q = fsLookup fs q
      rw [ih _ htl, fsLookup_fsWrite_ne _ _ _ _ hpc]

/-! ### Claim theorems: the documentation generator -/

/-- C6.  Documentation generation is repeatable: applying the writes of one
run to any file map and running again produces exactly the same writes and
logs, because the generated files are disjoint from the two source paths the
run reads. -/
theorem docs_generation_idempotent (fs : List (List String × String)) :
    runDocs (applyWrites fs (runDocs fs).1) = runDocs fs := by
  have hmap : (runDocs fs).1.map Prod.fst =
        [["docs", "artifact-auction.md"], ["docs", "api.md"], ["SUMMARY.md"], ["book.json"]] ∨
      (runDocs fs).1.map Prod.fst = [["docs", "api.md"], ["SUMMARY.md"], ["book.json"]] := by
    unfold runDocs generateDocumentation
    rcases fsLookup fs contractSrcPath with _ | c <;>
      rcases fsLookup fs testSrcPath with _ | t <;> simp
  have hpaths : ∀ pc ∈ (runDocs fs).1, pc.1 ≠ contractSrcPath ∧ pc.1 ≠ testSrcPath := by
    intro pc hpc
    have h1 : pc.1 ∈ (runDocs fs).1.map Prod.fst := List.mem_map_of_mem _ hpc
    rcases hmap with hm | hm <;> rw [hm] at h1 <;> simp at h1
    · rcases h1 with h | h | h | h <;> rw [h] <;> exact ⟨by decide, by decide⟩
    · rcases h1 with h | h | h <;> rw [h] <;> exact ⟨by decide, by decide⟩
  set w := (runDocs fs).1 with hw
  show runDocs (applyWrites fs w) = runDocs fs
  conv_lhs => unfold runDocs
  rw [fsLookup_applyWrites _ _ _ (fun pc hpc => (hpaths pc hpc).1),
    fsLookup_applyWrites _ _ _ (fun pc hpc => (hpaths pc hpc).2)]
  rfl

/-- C9.  The `generate-docs` entry point ignores everything about its
arguments except whether the first one is `--help` or `-h`: two non-help
argument vectors behave identically on the same file map, and a help argument
shows usage and writes nothing. -/
theorem docs_args_irrelevant (args1 args2 : List String)
    (fs : List (List String × String))
    (h1 : isHelpArg args1 = false) (h2 : isHelpArg args2 = false) :
    docsMain args1 fs = docsMain args2 fs ∧
      ∀ args3, isHelpArg args3 = true → docsMain args3 fs = DocsBehavior.helpShown := by
  refine ⟨by simp [docsMain, h1, h2], fun a3 h3 => by simp [docsMain, h3]⟩

/-- Witness for C9 at `--all` versus no arguments, and `--help`. -/
theorem docs_args_irrelevant_witness :
    docsMain ["--all"] [] = docsMain [] [] ∧
      docsMain ["--help"] [] = DocsBehavior.helpShown :=
  ⟨(docs_args_irrelevant ["--all"] [] [] rfl rfl).1,
   (docs_args_irrelevant ["--all"] [] [] rfl rfl).2 ["--help"] rfl⟩

/-- C5 counterexample.  With the contract file absent, every console line of
the run also occurs in a run where both files exist, so no message at all is
logged for the skip (the claim asserts a logged skip message); the first
conjunct shows the contract document was indeed skipped. -/
theorem docs_skip_logs_nothing_counterexample :
    (((generateDocumentation none (some "t")).1.map Prod.fst).contains
        ["docs", "artifact-auction.md"]) = false ∧
    ((generateDocumentation none (some "t")).2).all
        (fun m => ((generateDocumentation (some "c") (some "t")).2).contains m) = true := by
  exact ⟨rfl, rfl⟩

/-- C5 as amended.  When the hardcoded contract or test file is absent the
contract document is skipped silently: the run behaves exactly as if both
files were absent, still writing the API reference, the table of contents and
the renderer configuration, and logging no line about the skip. -/
theorem docs_skip_is_silent (c t : Option String) (h : c = none ∨ t = none) :
    generateDocumentation c t = generateDocumentation none none ∧
    (generateDocumentation c t).1.map Prod.fst =
      [["docs", "api.md"], ["SUMMARY.md"], ["book.json"]] := by
  rcases h with h | h
  · subst h; exact ⟨rfl, rfl⟩
  · subst h; cases c <;> exact ⟨rfl, rfl⟩

/-- Witness for the amended C5 with only the test file present. -/
theorem docs_skip_is_silent_witness :
    generateDocumentation none (some "x") = generateDocumentation none none ∧
    (generateDocumentation none (some "x")).1.map Prod.fst =
      [["docs", "api.md"], ["SUMMARY.md"], ["book.json"]] :=
  docs_skip_is_silent none (some "x") (Or.inl rfl)

/-! ### Claim theorems: unknown keys and existing destinations -/

/-- C4.  An example key outside the registry makes the project generator fail
with the unknown-example error before anything is written, for every
destination path (existing or not). -/
theorem unknown_example_fails_clean (root : Tree) (key outputDir : String)
    (destExists : Bool) (h : lookupStr EXAMPLES_MAP key = none) :
    createExample root key outputDir destExists =
      GenResult.err ("Unknown example: " ++ key) none := by
  unfold createExample
  rw [h]

/-- Witness for C4 at the key `bogus`. -/
theorem unknown_example_fails_clean_witness :
    lookupStr EXAMPLES_MAP "bogus" = none ∧
    createExample (Tree.dir []) "bogus" "out" true =
      GenResult.err ("Unknown example: " ++ "bogus") none := by
  have h : lookupStr EXAMPLES_MAP "bogus" = none := by decide
  exact ⟨h, unknown_example_fails_clean (Tree.dir []) "bogus" "out" true h⟩

/-- C3 counterexample.  With an existing destination but an unknown key, the
project generator fails with the unknown-example (NotFound) error, not the
directory-exists (AlreadyExists) error the claim requires for every key. -/
theorem exists_dest_not_always_already_exists :
    createExample (Tree.dir []) "bogus" "dest" true =
      GenResult.err ("Unknown example: " ++ "bogus") none ∧
    ("Unknown example: " ++ "bogus") ≠ ("Directory exists: " ++ "dest") := by
  exact ⟨rfl, by decide⟩

/-- C3 as amended.  With an existing destination both generators always fail
without performing any write, so a second invocation with the same
destination can never overwrite it; the failure is the AlreadyExists error
whenever the key is valid (and, for the project generator, its registered
source files exist — earlier checks fire first otherwise). -/
theorem exists_dest_never_overwrites (root : Tree) (key outputDir : String) :
    ((createExample root key outputDir true).isErr = true ∧
      (createExample root key outputDir true).writtenAt = none) ∧
    ((createCategory root key outputDir true).isErr = true ∧
      (createCategory root key outputDir true).writtenAt = none) ∧
    (∀ cfg, lookupStr EXAMPLES_MAP key = some cfg →
      (treeLookup (splitPath cfg.contract) root).isSome = true →
      (treeLookup (splitPath cfg.test) root).isSome = true →
      createExample root key outputDir true =
        GenResult.err ("Directory exists: " ++ outputDir) none) ∧
    (∀ cat, lookupStr CATEGORIES key = some cat →
      createCategory root key outputDir true =
        GenResult.err ("Output directory already exists: " ++ outputDir) none) := by
  refine ⟨?_, ?_, ?_, ?_⟩
  · unfold createExample
    cases h : lookupStr EXAMPLES_MAP key with
    | none => exact ⟨rfl, rfl⟩
    | some cfg =>
        by_cases h1 : (treeLookup (splitPath cfg.contract) root).isNone = true <;>
          by_cases h2 : (treeLookup (splitPath cfg.test) root).isNone = true <;>
          simp [h1, h2, GenResult.isErr, GenResult.writtenAt]
  · unfold createCategory
    cases h : lookupStr CATEGORIES key with
    | none => exact ⟨rfl, rfl⟩
    | some cat => exact ⟨rfl, rfl⟩
  · intro cfg hcfg hc ht
    unfold createExample
    rw [hcfg]
    cases e1 : treeLookup (splitPath cfg.contract) root with
    | none => rw [e1] at hc; simp at hc
    | some v1 =>
        cases e2 : treeLookup (splitPath cfg.test) root with
        | none => rw [e2] at ht; simp at ht
        | some v2 => simp [e1, e2]
  · intro cat hcat
    unfold createCategory
    rw [hcat]
    rfl

/-- Witness for the amended C3: a valid example key and a valid category key
against an existing destination produce the AlreadyExists errors, and an
unknown key still writes nothing. -/
theorem exists_dest_never_overwrites_witness :
    createExample
        (Tree.dir
          [("contracts", Tree.dir [("ArtifactAuction.sol",
              Tree.file (Content.text "contract ArtifactAuction \x7b"))]),
           ("test", Tree.dir [("ArtifactAuction.ts", Tree.file (Content.text "// t"))])])
        "artifact-auction" "out" true =
      GenResult.err ("Directory exists: " ++ "out") none ∧
    createCategory (Tree.dir []) "basic" "out" true =
      GenResult.err ("Output directory already exists: " ++ "out") none ∧
    (createExample (Tree.dir []) "bogus" "out" true).writtenAt = none :=
  ⟨(exists_dest_never_overwrites _ "artifact-auction" "out").2.2.1 _ rfl (by rfl) (by rfl),
   (exists_dest_never_overwrites (Tree.dir []) "basic" "out").2.2.2 _ rfl,
   ((exists_dest_never_overwrites (Tree.dir []) "bogus" "out").1).2⟩

/-- C2 counterexample.  Category `basic` over an empty repository tree: the
sources of member `counter` are missing, yet the run succeeds with no
warning at all and `examples/counter` is present in the output (the claim
requires a warning and the member's absence). -/
theorem category_missing_sources_kept_counterexample :
    (createCategory (Tree.dir []) "basic" "out" false).isErr = false ∧
    (createCategory (Tree.dir []) "basic" "out" false).warningsOf = [] ∧
    ((createCategory (Tree.dir []) "basic" "out" false).writtenAt.bind
        (treeLookup ["examples", "counter"])).isSome = true ∧
    ((createCategory (Tree.dir []) "basic" "out" false).writtenAt.bind
        (treeLookup ["examples", "counter", "contracts", "Counter.sol"])) = none ∧
    treeLookup (splitPath "contracts/Counter.sol") (Tree.dir []) = none ∧
    treeLookup (splitPath "test/Counter.ts") (Tree.dir []) = none := by
  exact ⟨rfl, rfl, rfl, rfl, rfl, rfl⟩

/-! ### Lemmas about the recursive copy and the manifest rewrite -/

theorem lookupA_copyChildren_file (skip : List String) (cs : List (String × Tree))
    (n : String) (c : Content) (hn : ¬ n ∈ skip)
    (h : lookupA cs n = some (Tree.file c)) :
    lookupA (copyChildren skip cs) n = some (Tree.file c) := by
  induction cs with
  | nil => simp [lookupA] at h
  | cons hd tl ih =>
      obtain ⟨m, t⟩ := hd
      unfold lookupA at h
      unfold copyChildren
      by_cases hm : m = n
      · subst hm
        simp at h
        subst h
        simp [hn, lookupA]
      · simp [hm] at h
        by_cases hs : m ∈ skip
        · simp [hs]
          exact ih h
        · cases t with
          | file c' =>
              simp [hs, lookupA, hm]
              exact ih h
          | dir cs' =>
              by_cases he : m ∈ excludedDirNames <;>
                simp [hs, he, lookupA, hm] <;> exact ih h

theorem lookupA_copyChildren_none (skip : List String) (cs : List (String × Tree))
    (n : String) (h : lookupA cs n = none) :
    lookupA (copyChildren skip cs) n = none := by
  induction cs with
  | nil => simp [copyChildren, lookupA]
  | cons hd tl ih =>
      obtain ⟨m, t⟩ := hd
      unfold lookupA at h
      unfold copyChildren
      by_cases hm : m = n
      · simp [hm] at h
      · simp [hm] at h
        by_cases hs : m ∈ skip
        · simp [hs]
          exact ih h
        · cases t with
          | file c' =>
              simp [hs, lookupA, hm]
              exact ih h
          | dir cs' =>
              by_cases he : m ∈ excludedDirNames <;>
                simp [hs, he, lookupA, hm] <;> exact ih h

theorem lookupA_replaceOrAppend_self (cs : List (String × Tree)) (n : String) (t : Tree) :
    lookupA (replaceOrAppend cs n t) n = some t := by
  induction cs with
  | nil => simp [replaceOrAppend, lookupA]
  | cons hd tl ih =>
      obtain ⟨m, u⟩ := hd
      unfold replaceOrAppend
      by_cases hm : m = n
      · simp [hm, lookupA]
      · simp [hm, lookupA, ih]

theorem lookupA_replaceOrAppend_ne (cs : List (String × Tree)) (n : String) (t : Tree)
    (m : String) (h : n ≠ m) :
    lookupA (replaceOrAppend cs n t) m = lookupA cs m := by
  induction cs with
  | nil => simp [replaceOrAppend, lookupA, h]
  | cons hd tl ih =>
      obtain ⟨k, u⟩ := hd
      unfold replaceOrAppend
      by_cases hk : k = n
      · subst hk
        simp [lookupA, h]
      · simp [hk, lookupA, ih]

theorem getField_setField_self (fs : List (String × Json)) (k : String) (v : Json) :
    getField (setField fs k v) k = some v := by
  induction fs with
  | nil => simp [setField, getField]
  | cons hd tl ih =>
      obtain ⟨k', v'⟩ := hd
      unfold setField
      by_cases hk : k' = k
      · simp [hk, getField]
      · simp [hk, getField, ih]

theorem getField_setField_ne (fs : List (String × Json)) (k : String) (v : Json)
    (m : String) (h : k ≠ m) :
    getField (setField fs k v) m = getField fs m := by
  induction fs with
  | nil => simp [setField, getField, h]
  | cons hd tl ih =>
      obtain ⟨k', v'⟩ := hd
      unfold setField
      by_cases hk : k' = k
      · subst hk
        simp [getField, h, ih]
      · simp [hk, getField, ih]

/-- C1.  Generating a project for any registered key over any repository tree
whose registered contract declares a contract name and whose manifest parses
as a JSON object succeeds, and the destination manifest's `name` field equals
`fhevm-` followed by the key while its `description` equals the registry's
description for the key. -/
theorem manifest_fields_after_generate (root0 : List (String × Tree))
    (key outputDir : String) (cfg : ExampleConfig) (cs cname : String)
    (fields : List (String × Json))
    (hkey : lookupStr EXAMPLES_MAP key = some cfg)
    (hc : treeLookup (splitPath cfg.contract) (Tree.dir root0) =
      some (Tree.file (Content.text cs)))
    (ht : (treeLookup (splitPath cfg.test) (Tree.dir root0)).isSome = true)
    (hn : getContractName cs = some cname)
    (hp : lookupA root0 "package.json" =
      some (Tree.file (Content.jsonC (Json.obj fields)))) :
    ∃ t fields',
      createExample (Tree.dir root0) key outputDir false = GenResult.ok t [] ∧
      lookupChild t "package.json" =
        some (Tree.file (Content.jsonC (Json.obj fields'))) ∧
      getField fields' "name" = some (Json.str ("fhevm-" ++ key)) ∧
      getField fields' "description" = some (Json.str cfg.description) := by
  obtain ⟨v2, hv2⟩ := Option.isSome_iff_exists.mp ht
  have hpc : lookupA (copyChildren ["scripts"] root0) "package.json" =
      some (Tree.file (Content.jsonC (Json.obj fields))) :=
    lookupA_copyChildren_file _ _ _ _ (by decide) hp
  have hrun : createExample (Tree.dir root0) key outputDir false =
      GenResult.ok
        (updateChild
          (updateChild (Tree.dir (copyChildren ["scripts"] root0)) "package.json"
            (Tree.file (Content.jsonC (Json.obj
              (setField (setField fields "name" (Json.str ("fhevm-" ++ key)))
                "description" (Json.str cfg.description))))))
          "README.md"
          (Tree.file (Content.text (generateReadme key cfg.description cname)))) [] := by
    unfold createExample
    rw [hkey]
    simp only [hc, hv2, Option.isNone_some, Bool.false_eq_true, if_false,
      copyDirectoryRecursive, readText, hn, updatePackageJson, lookupChild,
      treeLookup, hpc]
  refine ⟨_, setField (setField fields "name" (Json.str ("fhevm-" ++ key)))
      "description" (Json.str cfg.description), hrun, ?_, ?_, ?_⟩
  · show treeLookup ["package.json"] _ = _
    simp only [updateChild, treeLookup]
    rw [lookupA_replaceOrAppend_ne _ _ _ _ (by decide),
      lookupA_replaceOrAppend_self]
  · rw [getField_setField_ne _ _ _ _ (by decide), getField_setField_self]
  · rw [getField_setField_self]

/-- Witness for C1 at the key `artifact-auction` over the sample repository:
the generated manifest carries the prefixed name and the registry
description. -/
theorem manifest_fields_after_generate_witness :
    ∃ t fields',
      createExample sampleRoot "artifact-auction" "out" false = GenResult.ok t [] ∧
      lookupChild t "package.json" =
        some (Tree.file (Content.jsonC (Json.obj fields'))) ∧
      getField fields' "name" = some (Json.str ("fhevm-" ++ "artifact-auction")) ∧
      getField fields' "description" =
        some (Json.str
          "Confidential artifact auction with encrypted bids and authentication") :=
  manifest_fields_after_generate sampleRootChildren "artifact-auction" "out" _
    "contract ArtifactAuction \x7b" "ArtifactAuction" _ rfl rfl rfl rfl rfl

/-- C7.  The README step depends on the contract-declaration pattern match:
when no declaration is found the run fails with the extraction error, and
when one is found the run succeeds and the generated README contains the
declared name. -/
theorem contract_name_gates_readme (root0 : List (String × Tree))
    (key outputDir : String) (cfg : ExampleConfig) (cs : String)
    (hkey : lookupStr EXAMPLES_MAP key = some cfg)
    (hc : treeLookup (splitPath cfg.contract) (Tree.dir root0) =
      some (Tree.file (Content.text cs)))
    (ht : (treeLookup (splitPath cfg.test) (Tree.dir root0)).isSome = true) :
    (getContractName cs = none →
      createExample (Tree.dir root0) key outputDir false =
        GenResult.err "Could not extract contract name"
          (some (Tree.dir (copyChildren ["scripts"] root0)))) ∧
    (∀ cname fields, getContractName cs = some cname →
      lookupA root0 "package.json" =
        some (Tree.file (Content.jsonC (Json.obj fields))) →
      ∃ t, createExample (Tree.dir root0) key outputDir false = GenResult.ok t [] ∧
        lookupChild t "README.md" =
          some (Tree.file (Content.text (generateReadme key cfg.description cname))) ∧
        ∃ pre post, generateReadme key cfg.description cname = pre ++ cname ++ post) := by
  obtain ⟨v2, hv2⟩ := Option.isSome_iff_exists.mp ht
  constructor
  · intro hn
    unfold createExample
    rw [hkey]
    simp only [hc, hv2, Option.isNone_some, Bool.false_eq_true, if_false,
      copyDirectoryRecursive, readText, hn]
  · intro cname fields hn hp
    have hpc : lookupA (copyChildren ["scripts"] root0) "package.json" =
        some (Tree.file (Content.jsonC (Json.obj fields))) :=
      lookupA_copyChildren_file _ _ _ _ (by decide) hp
    refine ⟨updateChild
        (updateChild (Tree.dir (copyChildren ["scripts"] root0)) "package.json"
          (Tree.file (Content.jsonC (Json.obj
            (setField (setField fields "name" (Json.str ("fhevm-" ++ key)))
              "description" (Json.str cfg.description))))))
        "README.md"
        (Tree.file (Content.text (generateReadme key cfg.description cname))), ?_, ?_, ?_⟩
    · unfold createExample
      rw [hkey]
      simp only [hc, hv2, Option.isNone_some, Bool.false_eq_true, if_false,
        copyDirectoryRecursive, readText, hn, updatePackageJson, lookupChild,
        treeLookup, hpc]
    · show treeLookup ["README.md"] _ = _
      simp only [updateChild, treeLookup]
      rw [lookupA_replaceOrAppend_self]
    · refine ⟨"# FHEVM Example: " ++ key ++ "\n\n" ++ cfg.description ++
        "\n\n## Quick Start\n\n### Installation\n\n```bash\nnpm install\nnpm run compile\nnpm run test\n```" ++
        "\n\n## Contract\n\nMain contract: `",
        "` in `contracts/" ++ cname ++
        ".sol`\n\n## Documentation\n\n- [FHEVM Docs](https://docs.zama.ai/fhevm)\n- [Hardhat](https://hardhat.org)" ++
        "\n\n## License\n\nMIT License\n", ?_⟩
      simp only [generateReadme, String.append_assoc]

/-- Witness for C7 over the sample repository: both the successful branch at
the declared name `ArtifactAuction` and, at a contract file with no
declaration, the failing branch. -/
theorem contract_name_gates_readme_witness :
    (∃ t, createExample sampleRoot "artifact-auction" "out" false = GenResult.ok t [] ∧
      lookupChild t "README.md" =
        some (Tree.file (Content.text (generateReadme "artifact-auction"
          "Confidential artifact auction with encrypted bids and authentication"
          "ArtifactAuction"))) ∧
      ∃ pre post, generateReadme "artifact-auction"
          "Confidential artifact auction with encrypted bids and authentication"
          "ArtifactAuction" = pre ++ "ArtifactAuction" ++ post) ∧
    createExample
        (Tree.dir [("contracts", Tree.dir [("ArtifactAuction.sol",
            Tree.file (Content.text "// no declaration here"))]),
          ("test", Tree.dir [("ArtifactAuction.ts", Tree.file (Content.text ""))])])
        "artifact-auction" "out" false =
      GenResult.err "Could not extract contract name"
        (some (Tree.dir (copyChildren ["scripts"]
          [("contracts", Tree.dir [("ArtifactAuction.sol",
              Tree.file (Content.text "// no declaration here"))]),
            ("test", Tree.dir [("ArtifactAuction.ts", Tree.file (Content.text ""))])]))) :=
  ⟨(contract_name_gates_readme sampleRootChildren "artifact-auction" "out" _
      "contract ArtifactAuction \x7b" rfl rfl rfl).2 "ArtifactAuction" _ rfl rfl,
   (contract_name_gates_readme
      [("contracts", Tree.dir [("ArtifactAuction.sol",
              Tree.file (Content.text "// no declaration here"))]),
            ("test", Tree.dir [("ArtifactAuction.ts", Tree.file (Content.text ""))])]
      "artifact-auction" "out" _ "// no declaration here" rfl rfl rfl).1 rfl⟩

/-- C8.  When generation fails because no contract declaration was found, the
destination already holds the fully copied template tree: the run exits with
exactly the copied tree written, the copied manifest is the template's
manifest unchanged, and no README was generated (the destination README is
the template's, or absent when the template has none). -/
theorem failed_extraction_leaves_template (root0 : List (String × Tree))
    (key outputDir : String) (cfg : ExampleConfig) (cs : String)
    (hkey : lookupStr EXAMPLES_MAP key = some cfg)
    (hc : treeLookup (splitPath cfg.contract) (Tree.dir root0) =
      some (Tree.file (Content.text cs)))
    (ht : (treeLookup (splitPath cfg.test) (Tree.dir root0)).isSome = true)
    (hn : getContractName cs = none) :
    createExample (Tree.dir root0) key outputDir false =
      GenResult.err "Could not extract contract name"
        (some (Tree.dir (copyChildren ["scripts"] root0))) ∧
    (∀ c, lookupA root0 "package.json" = some (Tree.file c) →
      lookupA (copyChildren ["scripts"] root0) "package.json" = some (Tree.file c)) ∧
    (∀ c, lookupA root0 "README.md" = some (Tree.file c) →
      lookupA (copyChildren ["scripts"] root0) "README.md" = some (Tree.file c)) ∧
    (lookupA root0 "README.md" = none →
      lookupA (copyChildren ["scripts"] root0) "README.md" = none) := by
  obtain ⟨v2, hv2⟩ := Option.isSome_iff_exists.mp ht
  refine ⟨?_, ?_, ?_, ?_⟩
  · unfold createExample
    rw [hkey]
    simp only [hc, hv2, Option.isNone_some, Bool.false_eq_true, if_false,
      copyDirectoryRecursive, readText, hn]
  · exact fun c hcc => lookupA_copyChildren_file _ _ _ _ (by decide) hcc
  · exact fun c hcc => lookupA_copyChildren_file _ _ _ _ (by decide) hcc
  · exact fun hcc => lookupA_copyChildren_none _ _ _ hcc

/-- Witness for C8: a repository whose contract file has no contract
declaration; the run errs after the copy, the copied manifest equals the
template manifest, and no README appears in the copy. -/
theorem failed_extraction_leaves_template_witness :
    createExample
        (Tree.dir [("package.json", Tree.file (Content.jsonC (Json.obj
            [("name", Json.str "hub")]))),
          ("contracts", Tree.dir [("ArtifactAuction.sol",
            Tree.file (Content.text "pragma solidity;"))]),
          ("test", Tree.dir [("ArtifactAuction.ts", Tree.file (Content.text ""))])])
        "artifact-auction" "out" false =
      GenResult.err "Could not extract contract name"
        (some (Tree.dir (copyChildren ["scripts"]
          [("package.json", Tree.file (Content.jsonC (Json.obj
              [("name", Json.str "hub")]))),
            ("contracts", Tree.dir [("ArtifactAuction.sol",
              Tree.file (Content.text "pragma solidity;"))]),
            ("test", Tree.dir [("ArtifactAuction.ts", Tree.file (Content.text ""))])]))) ∧
    lookupA (copyChildren ["scripts"]
        [("package.json", Tree.file (Content.jsonC (Json.obj
            [("name", Json.str "hub")]))),
          ("contracts", Tree.dir [("ArtifactAuction.sol",
            Tree.file (Content.text "pragma solidity;"))]),
          ("test", Tree.dir [("ArtifactAuction.ts", Tree.file (Content.text ""))])])
      "package.json" =
      some (Tree.file (Content.jsonC (Json.obj [("name", Json.str "hub")]))) ∧
    lookupA (copyChildren ["scripts"]
        [("package.json", Tree.file (Content.jsonC (Json.obj
            [("name", Json.str "hub")]))),
          ("contracts", Tree.dir [("ArtifactAuction.sol",
            Tree.file (Content.text "pragma solidity;"))]),
          ("test", Tree.dir [("ArtifactAuction.ts", Tree.file (Content.text ""))])])
      "README.md" = none :=
  ⟨(failed_extraction_leaves_template
      [("package.json", Tree.file (Content.jsonC (Json.obj
              [("name", Json.str "hub")]))),
            ("contracts", Tree.dir [("ArtifactAuction.sol",
              Tree.file (Content.text "pragma solidity;"))]),
            ("test", Tree.dir [("ArtifactAuction.ts", Tree.file (Content.text ""))])]
      "artifact-auction" "out" _ "pragma solidity;" rfl rfl rfl rfl).1,
   (failed_extraction_leaves_template
      [("package.json", Tree.file (Content.jsonC (Json.obj
              [("name", Json.str "hub")]))),
            ("contracts", Tree.dir [("ArtifactAuction.sol",
              Tree.file (Content.text "pragma solidity;"))]),
            ("test", Tree.dir [("ArtifactAuction.ts", Tree.file (Content.text ""))])]
      "artifact-auction" "out" _ "pragma solidity;" rfl rfl rfl rfl).2.1 _ rfl,
   (failed_extraction_leaves_template
      [("package.json", Tree.file (Content.jsonC (Json.obj
              [("name", Json.str "hub")]))),
            ("contracts", Tree.dir [("ArtifactAuction.sol",
              Tree.file (Content.text "pragma solidity;"))]),
            ("test", Tree.dir [("ArtifactAuction.ts", Tree.file (Content.text ""))])]
      "artifact-auction" "out" _ "pragma solidity;" rfl rfl rfl rfl).2.2.2 rfl⟩

/-! ### Lemmas for the category generator run -/

theorem lookupA_append (cs1 cs2 : List (String × Tree)) (n : String) :
    lookupA (cs1 ++ cs2) n =
      match lookupA cs1 n with
      | some t => some t
      | none => lookupA cs2 n := by
  induction cs1 with
  | nil => simp [lookupA]
  | cons hd tl ih =>
      obtain ⟨m, t⟩ := hd
      by_cases hm : m = n <;> simp [lookupA, hm, ih]

theorem lookupStr_mem {α : Type} (l : List (String × α)) (n : String) (v : α)
    (h : lookupStr l n = some v) : (n, v) ∈ l := by
  induction l with
  | nil => simp [lookupStr] at h
  | cons hd tl ih =>
      obtain ⟨k, w⟩ := hd
      unfold lookupStr at h
      by_cases hk : k = n
      · subst hk
        simp at h
        subst h
        simp
      · simp [hk] at h
        simp [ih h]

theorem copyOneSource_ok (root : Tree) (p : String)
    (h : isDirEntry (treeLookup (splitPath p) root) = false) :
    ∃ cs, copyOneSource root p = Except.ok cs := by
  unfold copyOneSource
  cases e : treeLookup (splitPath p) root with
  | none => exact ⟨[], rfl⟩
  | some t =>
      cases t with
      | file c => exact ⟨_, rfl⟩
      | dir cs => rw [e] at h; simp [isDirEntry] at h

theorem memberDir_ok (root : Tree) (m : String) (info : ExampleInfo)
    (hc : isDirEntry (treeLookup (splitPath info.contract) root) = false)
    (ht : isDirEntry (treeLookup (splitPath info.test) root) = false) :
    ∃ d, memberDir root m info = Except.ok d := by
  obtain ⟨cs, hcs⟩ := copyOneSource_ok root info.contract hc
  obtain ⟨ts, hts⟩ := copyOneSource_ok root info.test ht
  exact ⟨_, by unfold memberDir; rw [hcs, hts]; rfl⟩

theorem examplesLoop_ok (root : Tree) (members : List String)
    (acc : List (String × Tree)) (ws : List String)
    (h : ∀ m ∈ members, ∀ info, lookupStr EXAMPLES m = some info →
      ∃ d, memberDir root m info = Except.ok d) :
    ∃ cs, examplesLoop root members acc ws = Except.ok (cs, ws ++ warnMsgs members) ∧
      ∀ n, (lookupA cs n).isSome = true ↔
        ((lookupA acc n).isSome = true ∨
          (n ∈ members ∧ (lookupStr EXAMPLES n).isSome = true)) := by
  induction members generalizing acc ws with
  | nil =>
      refine ⟨acc, by simp [examplesLoop, warnMsgs], fun n => by simp⟩
  | cons m rest ih =>
      cases e : lookupStr EXAMPLES m with
      | none =>
          obtain ⟨cs, hloop, hiff⟩ := ih acc (ws ++ ["Warning: Example " ++ m ++ " not found"])
            (fun m' hm' info hinfo => h m' (by simp [hm']) info hinfo)
          refine ⟨cs, ?_, fun n => ?_⟩
          · have hw : warnMsgs (m :: rest) =
                ("Warning: Example " ++ m ++ " not found") :: warnMsgs rest := by
              simp [warnMsgs, List.filter_cons, e]
            unfold examplesLoop
            rw [e]
            simp only [hloop, hw]
            simp
          · rw [hiff n]
            by_cases hnm : n = m
            · subst hnm
              simp [e]
            · simp [List.mem_cons, hnm]
      | some info =>
          obtain ⟨d, hd⟩ := h m (by simp) info e
          obtain ⟨cs, hloop, hiff⟩ := ih (acc ++ [(m, d)]) ws
            (fun m' hm' info' hinfo' => h m' (by simp [hm']) info' hinfo')
          refine ⟨cs, ?_, fun n => ?_⟩
          · have hw : warnMsgs (m :: rest) = warnMsgs rest := by
              simp [warnMsgs, List.filter_cons, e]
            unfold examplesLoop
            rw [e]
            simp only [hd, hloop, hw]
          · rw [hiff n, lookupA_append]
            by_cases hnm : n = m
            · subst hnm
              cases ea : lookupA acc n <;> simp [ea, lookupA, e]
            · have hmn : ¬ (m = n) := fun hh => hnm hh.symm
              cases ea : lookupA acc n <;>
                simp [ea, lookupA, hmn, hnm, List.mem_cons]

theorem copyBaseLoop_ok (root : Tree) (names : List String) (acc : List (String × Tree))
    (h : ∀ f ∈ names, isDirEntry (treeLookup ["base-template", f] root) = false) :
    copyBaseLoop root names acc = Except.ok (acc ++ baseFilter root names) := by
  induction names generalizing acc with
  | nil => simp [copyBaseLoop, baseFilter]
  | cons f rest ih =>
      unfold copyBaseLoop
      cases e : treeLookup ["base-template", f] root with
      | none =>
          simp only [ih acc (fun f' hf' => h f' (by simp [hf']))]
          simp [baseFilter, e]
      | some t =>
          cases t with
          | file c =>
              simp only [ih (acc ++ [(f, Tree.file c)]) (fun f' hf' => h f' (by simp [hf']))]
              simp [baseFilter, e]
          | dir cs =>
              have := h f (by simp)
              rw [e] at this
              simp [isDirEntry] at this

theorem lookupA_baseFilter_not_mem (root : Tree) (names : List String) (n : String)
    (h : ¬ n ∈ names) : lookupA (baseFilter root names) n = none := by
  induction names with
  | nil => simp [baseFilter, lookupA]
  | cons f rest ih =>
      have hf : f ≠ n := fun hh => h (by simp [hh])
      have hrest : ¬ n ∈ rest := fun hh => h (by simp [hh])
      unfold baseFilter
      cases e : treeLookup ["base-template", f] root with
      | none => simpa [baseFilter, e] using ih hrest
      | some t =>
          cases t with
          | file c => simpa [baseFilter, e, lookupA, hf] using ih hrest
          | dir cs => simpa [baseFilter, e] using ih hrest

theorem lookupA_baseFilter (root : Tree) (names : List String) (n : String)
    (hnd : names.Nodup) (hmem : n ∈ names) :
    lookupA (baseFilter root names) n =
      match treeLookup ["base-template", n] root with
      | some (Tree.file c) => some (Tree.file c)
      | _ => none := by
  induction names with
  | nil => simp at hmem
  | cons f rest ih =>
      obtain ⟨hfr, hndr⟩ := List.nodup_cons.mp hnd
      by_cases hf : f = n
      · subst hf
        unfold baseFilter
        cases e : treeLookup ["base-template", f] root with
        | none => simpa [baseFilter, e] using lookupA_baseFilter_not_mem root rest f hfr
        | some t =>
            cases t with
            | file c => simp [baseFilter, e, lookupA]
            | dir cs => simpa [baseFilter, e] using lookupA_baseFilter_not_mem root rest f hfr
      · have hmem' : n ∈ rest := by
          rcases List.mem_cons.mp hmem with hh | hh
          · exact absurd hh.symm hf
          · exact hh
        unfold baseFilter
        cases e : treeLookup ["base-template", f] root with
        | none => simpa [baseFilter, e] using ih hndr hmem'
        | some t =>
            cases t with
            | file c => simpa [baseFilter, e, lookupA, hf] using ih hndr hmem'
            | dir cs => simpa [baseFilter, e] using ih hndr hmem'

theorem lookupChild_catTree (cs acc0 : List (String × Tree)) (rd : Tree) :
    lookupChild (Tree.dir ([("examples", Tree.dir cs)] ++ acc0 ++ [("README.md", rd)]))
        "package.json" =
      match lookupA acc0 "package.json" with
      | some t => some t
      | none => none := by
  show treeLookup _ _ = _
  simp only [List.cons_append, List.nil_append, treeLookup]
  rw [show lookupA (("examples", Tree.dir cs) :: (acc0 ++ [("README.md", rd)]))
      "package.json" = lookupA (acc0 ++ [("README.md", rd)]) "package.json" from by
    simp [lookupA]]
  rw [lookupA_append]
  cases e : lookupA acc0 "package.json" <;> simp [e, lookupA, treeLookup]

theorem treeLookup_examples (cs rest : List (String × Tree)) (m : String) :
    (treeLookup ["examples", m] (Tree.dir (("examples", Tree.dir cs) :: rest))).isSome =
      (lookupA cs m).isSome := by
  simp only [treeLookup]
  rw [show lookupA (("examples", Tree.dir cs) :: rest) "examples" =
      some (Tree.dir cs) from by simp [lookupA]]
  cases e : lookupA cs m <;> simp [treeLookup, e]

theorem treeLookup_examples_upd (cs cs0 : List (String × Tree)) (m n : String) (x : Tree)
    (hn : n ≠ "examples")
    (hx : lookupA cs0 "examples" = some (Tree.dir cs)) :
    (treeLookup ["examples", m] (Tree.dir (replaceOrAppend cs0 n x))).isSome =
      (lookupA cs m).isSome := by
  simp only [treeLookup]
  rw [lookupA_replaceOrAppend_ne _ _ _ _ hn, hx]
  cases e : lookupA cs m <;> simp [treeLookup, e]

/-- C2 as amended.  For a valid category key (ruling out only the unmodelled
raised-exception paths: a directory sitting where a registered file path or a
base-template config file is expected, or a non-JSON base-template manifest),
the run succeeds; the warnings are exactly one registry-miss line per member
absent from `EXAMPLES`, and `examples/m` exists in the output for exactly
the members present in the registry — whether or not their contract or test
files exist on disk. -/
theorem category_members_are_registry_members (root : Tree) (catKey outputDir : String)
    (cat : CategoryConfig)
    (hcat : lookupStr CATEGORIES catKey = some cat)
    (hbase : ∀ f ∈ baseTemplateFiles, isDirEntry (treeLookup ["base-template", f] root) = false)
    (hsrc : ∀ e ∈ EXAMPLES, isDirEntry (treeLookup (splitPath e.2.contract) root) = false ∧
      isDirEntry (treeLookup (splitPath e.2.test) root) = false)
    (hpkg : isTextEntry (treeLookup ["base-template", "package.json"] root) = false) :
    ∃ t, createCategory root catKey outputDir false = GenResult.ok t (warnMsgs cat.examples) ∧
      ∀ m, (treeLookup ["examples", m] t).isSome = true ↔
        (m ∈ cat.examples ∧ (lookupStr EXAMPLES m).isSome = true) := by
  have hmember : ∀ m ∈ cat.examples, ∀ info, lookupStr EXAMPLES m = some info →
      ∃ d, memberDir root m info = Except.ok d := by
    intro m _ info hinfo
    obtain ⟨h1, h2⟩ := hsrc (m, info) (lookupStr_mem _ _ _ hinfo)
    exact memberDir_ok root m info h1 h2
  obtain ⟨cs, hloop, hiff⟩ := examplesLoop_ok root cat.examples [] [] hmember
  have hiff' : ∀ n, (lookupA cs n).isSome = true ↔
      (n ∈ cat.examples ∧ (lookupStr EXAMPLES n).isSome = true) := by
    intro n
    rw [hiff n]
    simp [lookupA]
  unfold createCategory
  rw [hcat]
  simp only [Bool.false_eq_true, if_false]
  cases hbt : lookupChild root "base-template" with
  | none =>
      have hcb : copyBaseE root = Except.ok [] := by
        unfold copyBaseE
        rw [hbt]
        rfl
      rw [hcb, hloop]
      have hlu : lookupChild (Tree.dir ([("examples", Tree.dir cs)] ++ [] ++
          [("README.md", Tree.file (Content.text (generateCategoryReadme catKey cat)))]))
          "package.json" = none := by
        rw [lookupChild_catTree]
        exact rfl
      simp only [List.nil_append, hlu]
      refine ⟨_, rfl, fun m => ?_⟩
      simp only [List.append_nil, List.singleton_append, List.nil_append,
        List.cons_append]
      rw [treeLookup_examples]
      exact hiff' m
  | some bt =>
      have hcb : copyBaseE root = Except.ok (baseFilter root baseTemplateFiles) := by
        unfold copyBaseE
        rw [hbt]
        simpa using copyBaseLoop_ok root baseTemplateFiles [] hbase
      rw [hcb, hloop]
      have hpkgA : lookupA (baseFilter root baseTemplateFiles) "package.json" =
          match treeLookup ["base-template", "package.json"] root with
          | some (Tree.file c) => some (Tree.file c)
          | _ => none :=
        lookupA_baseFilter root baseTemplateFiles "package.json" (by decide) (by decide)
      cases epk : treeLookup ["base-template", "package.json"] root with
      | none =>
          have hlu : lookupChild (Tree.dir ([("examples", Tree.dir cs)] ++
              baseFilter root baseTemplateFiles ++
              [("README.md", Tree.file (Content.text (generateCategoryReadme catKey cat)))]))
              "package.json" = none := by
            rw [lookupChild_catTree, hpkgA, epk]
          simp only [List.nil_append, hlu]
          refine ⟨_, rfl, fun m => ?_⟩
          simp only [List.singleton_append, List.cons_append]
          rw [treeLookup_examples]
          exact hiff' m
      | some t0 =>
          cases t0 with
          | dir cs0 =>
              have := hbase "package.json" (by decide)
              rw [epk] at this
              simp [isDirEntry] at this
          | file c0 =>
              cases c0 with
              | text s0 =>
                  rw [epk] at hpkg
                  simp [isTextEntry] at hpkg
              | jsonC j0 =>
                  have hlu : lookupChild (Tree.dir ([("examples", Tree.dir cs)] ++
                      baseFilter root baseTemplateFiles ++
                      [("README.md",
                        Tree.file (Content.text (generateCategoryReadme catKey cat)))]))
                      "package.json" =
                      some (Tree.file (Content.jsonC j0)) := by
                    rw [lookupChild_catTree, hpkgA, epk]
                  simp only [List.nil_append, hlu]
                  refine ⟨_, rfl, fun m => ?_⟩
                  simp only [updateChild, List.singleton_append, List.cons_append]
                  rw [treeLookup_examples_upd cs _ m "package.json" _ (by decide)
                    (by simp [lookupA])]
                  exact hiff' m

/-- Witness for the amended C2: category `basic` over a tree where the
`counter` sources exist but the `fhe-counter` sources do not; both member
directories exist in the output, there are no warnings, and a key outside
the member list is absent. -/
theorem category_members_are_registry_members_witness :
    ∃ t, createCategory sampleCatRoot "basic" "out" false =
        GenResult.ok t (warnMsgs ["counter", "fhe-counter"]) ∧
      ((treeLookup ["examples", "counter"] t).isSome = true ↔
        ("counter" ∈ ["counter", "fhe-counter"] ∧
          (lookupStr EXAMPLES "counter").isSome = true)) ∧
      ((treeLookup ["examples", "fhe-counter"] t).isSome = true ↔
        ("fhe-counter" ∈ ["counter", "fhe-counter"] ∧
          (lookupStr EXAMPLES "fhe-counter").isSome = true)) ∧
      ((treeLookup ["examples", "zzz"] t).isSome = true ↔
        ("zzz" ∈ ["counter", "fhe-counter"] ∧
          (lookupStr EXAMPLES "zzz").isSome = true)) := by
  obtain ⟨t, h1, h2⟩ := category_members_are_registry_members sampleCatRoot "basic" "out" _
    rfl (by decide) (by decide) (by decide)
  exact ⟨t, h1, h2 "counter", h2 "fhe-counter", h2 "zzz"⟩

/-! ### Lemmas for the comment-extraction claim -/

theorem jsdocLoop_succ (fuel : Nat) (l : List Char) :
    jsdocLoop (fuel + 1) l =
      if ("/**".data).isPrefixOf l then
        match scanClose (l.length + 1) [] (l.drop 3) with
        | some (body, rest) =>
            ("/**".data ++ body ++ "*/".data) :: jsdocLoop fuel rest
        | none => []
      else
        match l with
        | [] => []
        | _ :: rest => jsdocLoop fuel rest := rfl

theorem jsdocLoopIdx_succ (fuel pos : Nat) (l : List Char) :
    jsdocLoopIdx (fuel + 1) pos l =
      if ("/**".data).isPrefixOf l then
        match scanClose (l.length + 1) [] (l.drop 3) with
        | some (body, rest) =>
            (pos, "/**".data ++ body ++ "*/".data) ::
              jsdocLoopIdx fuel (pos + (l.length - rest.length)) rest
        | none => []
      else
        match l with
        | [] => []
        | _ :: rest => jsdocLoopIdx fuel (pos + 1) rest := rfl

theorem scanClose_length (fuel : Nat) : ∀ acc m body rest,
    scanClose fuel acc m = some (body, rest) → rest.length ≤ m.length := by
  induction fuel with
  | zero => intro acc m body rest h; simp [scanClose] at h
  | succ f ih =>
      intro acc m body rest h
      unfold scanClose at h
      by_cases hp : ("*/".data).isPrefixOf m
      · simp [hp] at h
        obtain ⟨_, h2⟩ := h
        subst h2
        rw [List.length_drop]
        omega
      · simp [hp] at h
        cases m with
        | nil => simp at h
        | cons c rest' =>
            simp at h
            exact (ih _ _ _ _ h).trans (by simp)

theorem jsdocLoopIdx_map_snd (fuel : Nat) : ∀ pos l,
    (jsdocLoopIdx fuel pos l).map Prod.snd = jsdocLoop fuel l := by
  induction fuel with
  | zero => intro pos l; rfl
  | succ f ih =>
      intro pos l
      rw [jsdocLoopIdx_succ, jsdocLoop_succ]
      by_cases hp : ("/**".data).isPrefixOf l = true
      · simp only [hp, if_true]
        cases hsc : scanClose (l.length + 1) [] (l.drop 3) with
        | none => rfl
        | some br =>
            obtain ⟨body, rest⟩ := br
            simp [ih]
      · simp only [hp, Bool.false_eq_true, if_false]
        cases l with
        | nil => rfl
        | cons c rest => simp [ih]

theorem jsdocLoopIdx_start_le (fuel : Nat) : ∀ pos l pc,
    pc ∈ jsdocLoopIdx fuel pos l → pos ≤ pc.1 := by
  induction fuel with
  | zero => intro pos l pc h; simp [jsdocLoopIdx] at h
  | succ f ih =>
      intro pos l pc h
      rw [jsdocLoopIdx_succ] at h
      by_cases hp : ("/**".data).isPrefixOf l = true
      · simp only [hp, if_true] at h
        cases hsc : scanClose (l.length + 1) [] (l.drop 3) with
        | none => rw [hsc] at h; simp at h
        | some br =>
            obtain ⟨body, rest⟩ := br
            rw [hsc] at h
            simp at h
            rcases h with h | h
            · simp [h]
            · exact (Nat.le_add_right pos _).trans (ih _ _ _ h)
      · simp only [hp, Bool.false_eq_true, if_false] at h
        cases l with
        | nil => simp at h
        | cons c rest =>
            simp at h
            exact (Nat.le_succ pos).trans (ih _ _ _ h)

theorem jsdocLoopIdx_chain (fuel : Nat) : ∀ pos l,
    List.Chain' (fun a b : Nat × List Char => a.1 < b.1) (jsdocLoopIdx fuel pos l) := by
  induction fuel with
  | zero => intro pos l; simp [jsdocLoopIdx]
  | succ f ih =>
      intro pos l
      rw [jsdocLoopIdx_succ]
      by_cases hp : ("/**".data).isPrefixOf l = true
      · simp only [hp, if_true]
        cases hsc : scanClose (l.length + 1) [] (l.drop 3) with
        | none => simp
        | some br =>
            obtain ⟨body, rest⟩ := br
            have hlen : rest.length < l.length := by
              have h3 : 3 ≤ l.length := by
                have := List.IsPrefix.length_le (List.isPrefixOf_iff_prefix.mp hp)
                simpa using this
              have hcl := scanClose_length _ _ _ _ _ hsc
              have hd : (l.drop 3).length = l.length - 3 := List.length_drop 3 l
              omega
            refine List.chain'_cons'.mpr ⟨?_, ih _ _⟩
            intro b hb
            have hstart := jsdocLoopIdx_start_le f (pos + (l.length - rest.length)) rest b
              (List.mem_of_mem_head? hb)
            have : 0 < l.length - rest.length := by omega
            omega
      · simp only [hp, Bool.false_eq_true, if_false]
        cases l with
        | nil => simp
        | cons c rest => exact ih _ _

theorem latestStart_of_chain : ∀ l : List (Nat × List Char),
    List.Chain' (fun a b : Nat × List Char => a.1 < b.1) l → latestStart l = l.getLast? := by
  have aux : ∀ (rest : List (Nat × List Char)) (pc : Nat × List Char),
      List.Chain' (fun a b : Nat × List Char => a.1 < b.1) (pc :: rest) →
      some (rest.foldl (fun a b => if a.1 < b.1 then b else a) pc) =
        (pc :: rest).getLast? := by
    intro rest
    induction rest with
    | nil => intro pc _; rfl
    | cons b rest' ih =>
        intro pc hch
        have hpb : pc.1 < b.1 := (List.chain'_cons.mp hch).1
        have hch' := (List.chain'_cons.mp hch).2
        simp only [List.foldl_cons, if_pos hpb]
        rw [List.getLast?_cons_cons]
        exact ih b hch'
  intro l hch
  cases l with
  | nil => rfl
  | cons pc rest =>
      unfold latestStart
      exact aux rest pc hch

theorem containsSeq_false_of_take (needle l : List Char) (i : Nat)
    (hne : needle ≠ []) (h : containsSeq needle l = false) :
    containsSeq needle (l.take i) = false := by
  induction l generalizing i with
  | nil =>
      simp only [List.take_nil]
      exact h
  | cons c rest ih =>
      cases i with
      | zero =>
          simp [containsSeq, List.isEmpty_iff, hne]
      | succ j =>
          unfold containsSeq at h ⊢
          simp only [List.take_succ_cons]
          rcases Bool.or_eq_false_iff.mp h with ⟨h1, h2⟩
          refine Bool.or_eq_false_iff.mpr ⟨?_, ih j h2⟩
          by_contra hcon
          have hcon' : needle.isPrefixOf (c :: rest.take j) = true := by
            cases hcc : needle.isPrefixOf (c :: rest.take j)
            · exact absurd hcc hcon
            · rfl
          have hpref : needle <+: (c :: rest.take j) :=
            List.isPrefixOf_iff_prefix.mp hcon'
          have htake : (c :: rest.take j) <+: (c :: rest) := by
            have heq : (c :: rest).take (j + 1) = c :: rest.take j := rfl
            rw [← heq]
            exact List.take_prefix _ _
          have hfull : needle.isPrefixOf (c :: rest) = true :=
            List.isPrefixOf_iff_prefix.mpr (hpref.trans htake)
          rw [hfull] at h1
          exact absurd h1 (by simp)

theorem jsdocLoop_nil_of_no_open (fuel : Nat) : ∀ l : List Char,
    containsSeq ("/**".data) l = false → jsdocLoop fuel l = [] := by
  induction fuel with
  | zero => intro l _; rfl
  | succ f ih =>
      intro l h
      rw [jsdocLoop_succ]
      by_cases hp : ("/**".data).isPrefixOf l = true
      · exfalso
        cases l with
        | nil => simp [List.isPrefixOf] at hp
        | cons c rest => simp [containsSeq, hp] at h
      · simp only [hp, Bool.false_eq_true, if_false]
        cases l with
        | nil => rfl
        | cons c rest =>
            unfold containsSeq at h
            rcases Bool.or_eq_false_iff.mp h with ⟨_, h2⟩
            exact ih rest h2

/-- C10 counterexample.  A one-line block comment `/** hi */` before a test
group: the emitted body is ` hi */`, which still contains the closing
delimiter, contradicting the claim that delimiters are stripped. -/
theorem one_line_comment_keeps_delimiter :
    (extractTestDescriptions "/** hi */\ndescribe(\"T\", function ()").map
        (fun d => (d.title, d.description)) = [("T", " hi */")] ∧
    containsSeq ("*/".data) (" hi */".data) = true := by
  exact ⟨rfl, rfl⟩

/-- C10 as amended.  A test group with no block comment anywhere before it
yields no pair at all (in particular a file with no comment opener yields an
empty extraction), and every emitted pair's body is the nearest block
comment preceding the group declaration — the one starting latest among the
comments in the text before it — cleaned by the engine's actual rules (every
`/**` removed, a `*/` removed only when alone at a line end, lines blank
before star-stripping removed, one leading whitespace-star marker stripped
per line, a `*/` sharing a line with text retained). -/
theorem extraction_matches_nearest_comment_spec (content : String) :
    extractTestDescriptions content = specExtract content ∧
    (containsSeq ("/**".data) content.data = false →
      extractTestDescriptions content = []) := by
  constructor
  · unfold extractTestDescriptions specExtract
    refine List.filterMap_congr (fun tp _ => ?_)
    dsimp only
    have hmap := jsdocLoopIdx_map_snd ((content.data.take tp.2).length + 1) 0
      (content.data.take tp.2)
    rw [← hmap, List.getLast?_map,
      latestStart_of_chain _ (jsdocLoopIdx_chain _ 0 (content.data.take tp.2))]
    cases (jsdocLoopIdx ((content.data.take tp.2).length + 1) 0
        (content.data.take tp.2)).getLast? with
    | none => rfl
    | some pc => rfl
  · intro h
    unfold extractTestDescriptions
    rw [List.filterMap_eq_nil_iff]
    intro tp _
    dsimp only
    rw [jsdocLoop_nil_of_no_open _ _
      (containsSeq_false_of_take _ _ _ (by decide) h)]
    rfl

/-- Witness for the amended C10: a two-comment file (the nearest comment is
chosen and cleaned) and a comment-free file (empty extraction). -/
theorem extraction_matches_nearest_comment_spec_witness :
    extractTestDescriptions "/**\n * First\n */\n/**\n * Near body\n */\ndescribe(\"X\", function ()" =
      specExtract "/**\n * First\n */\n/**\n * Near body\n */\ndescribe(\"X\", function ()" ∧
    (extractTestDescriptions "/**\n * First\n */\n/**\n * Near body\n */\ndescribe(\"X\", function ()").map
        (fun d => (d.title, d.description)) = [("X", "Near body")] ∧
    extractTestDescriptions "describe(\"X\", function ()" = [] :=
  ⟨(extraction_matches_nearest_comment_spec _).1,
   rfl,
   (extraction_matches_nearest_comment_spec "describe(\"X\", function ()").2 rfl⟩

end CAA
